import Mathlib

/-!
# The Session create builders of `entc/integration/customid/ent`

A shallow embedding of `session_create.go`: the single-entity create builder
`SessionCreate`, the bulk builder `SessionCreateBulk` and the two upsert
configurators `SessionUpsertOne` and `SessionUpsertBulk`.

Go objects reached through pointers (the mutation of a builder, the local
variables captured by the closures of `Save`) live in an explicit `World`
that every operation threads through.  The collaborators that are declared
outside `session_create.go` (the `session` package constants, the default-ID
generator, the ID validator, the `sqlgraph` executor) are the fields of `Env`.
The `context.Context` argument carries no data that the file inspects and is
left out.
-/

namespace Ent

/-! ## Data model -/

/-- The custom identifier type `schema.ID` of the Session entity, declared outside
`session_create.go`: an array of 64 bytes, which `check` slices as `v[:]`. -/
abbrev schema.ID := { l : List Nat // l.length = 64 }

/-- The zero value of `schema.ID`, the id of a freshly allocated `Session`. -/
def schema.ID.zero : schema.ID := ⟨List.replicate 64 0, List.length_replicate 64 0⟩

/-- Errors that the builders return.  Each constructor stands for one error value
built in `session_create.go`, or for an error produced by a collaborator. -/
inductive Err where
  /-- `errors.New(msg)`. -/
  | errorsNew (msg : String)
  /-- `fmt.Errorf("unexpected mutation type %T", m)`. -/
  | unexpectedMutationType
  /-- `fmt.Errorf("ent: uninitialized hook (forgotten import ent/runtime?)")`. -/
  | uninitializedHook
  /-- `fmt.Errorf("unexpected node type %T returned from SessionMutation", v)`. -/
  | unexpectedNodeType
  /-- `fmt.Errorf("ent: OnConflict was set for builder %d. Set it on the SessionCreateBulk instead", i)`. -/
  | onConflictSetForBuilder (i : Nat)
  /-- `fmt.Errorf("ent: validator failed for field %q: %w", field, cause)`. -/
  | validatorFailed (field : String) (cause : Err)
  /-- `&ValidationError{Name: name, err: err}`. -/
  | ValidationError (Name : String) (err : Err)
  /-- `&ConstraintError{msg: err.Error(), wrap: err}`. -/
  | ConstraintError (wrap : Err)
  /-- An error value coming from a collaborator (validator, executor, scanner, hook). -/
  | external (code : Nat)
  /-- A run-time fault inside a mutator (nil function value, index out of range). -/
  | fault
  deriving DecidableEq, Repr

/-- Values with which a goroutine can panic in this file. -/
inductive Panic where
  /-- `panic(err)` of the `...X` variants. -/
  | error (err : Err)
  /-- The runtime fault of calling a nil function value or indexing out of range. -/
  | runtime
  deriving DecidableEq, Repr

/-- The result of a call that either returns or panics. -/
inductive Outcome (α : Type) where
  | ret (a : α)
  | panic (p : Panic)
  deriving DecidableEq, Repr

/-- The options of `sql.ConflictOption` that the file builds or receives. -/
inductive ConflictOption where
  | ConflictColumns (columns : List String)
  | ResolveWithNewValues
  | ResolveWith (fn : Nat)
  | ResolveWithIgnore
  | DoNothing
  deriving DecidableEq, Repr

/-- The dynamic value held by `FieldSpec.Value` of an ID column: nil, a pointer
to a `schema.ID`, or a driver value of another type. -/
inductive IDValue where
  | null
  | idPtr (id : schema.ID)
  | raw (code : Nat)
  deriving DecidableEq, Repr

/-- The structure `sqlgraph.FieldSpec` (the fields the file sets). -/
structure FieldSpec where
  Typ : String
  Column : String
  Value : IDValue
  deriving DecidableEq, Repr

/-- The structure `sqlgraph.EdgeTarget`. -/
structure EdgeTarget where
  Nodes : List schema.ID
  IDSpec : FieldSpec
  deriving DecidableEq, Repr

/-- The structure `sqlgraph.EdgeSpec`. -/
structure EdgeSpec where
  Rel : String
  Inverse : Bool
  Table : String
  Columns : List String
  Bidi : Bool
  Target : EdgeTarget
  deriving DecidableEq, Repr

/-- The structure `sqlgraph.CreateSpec`. -/
structure CreateSpec where
  Table : String
  ID : FieldSpec
  OnConflict : List ConflictOption
  Edges : List EdgeSpec
  deriving DecidableEq, Repr

/-- The structure `sqlgraph.BatchCreateSpec`; an entry of `Nodes` is `none`
while the slot of the slice is still nil. -/
structure BatchCreateSpec where
  Nodes : List (Option CreateSpec)
  OnConflict : List ConflictOption
  deriving DecidableEq, Repr

/-- The entity record `Session` (its `config` is left out). -/
structure Session where
  ID : schema.ID
  device_sessions : Option schema.ID
  deriving DecidableEq, Repr

/-- Modelled from the spec: `SessionMutation` is declared outside
`session_create.go`.  It records the pending id (the resolved-ID slot), the
pending `device` edge and the completion flag. -/
structure SessionMutation where
  id : Option schema.ID
  device : Option schema.ID
  done : Bool
  deriving DecidableEq, Repr

/-- Modelled from the spec: the accessor `SessionMutation.ID`, the pending id
and whether it exists. -/
def SessionMutation.ID (m : SessionMutation) : Option schema.ID := m.id

/-- Modelled from the spec: the setter `SessionMutation.SetID`. -/
def SessionMutation.SetID (m : SessionMutation) (id : schema.ID) : SessionMutation :=
  { m with id := some id }

/-- Modelled from the spec: the setter `SessionMutation.SetDeviceID`. -/
def SessionMutation.SetDeviceID (m : SessionMutation) (id : schema.ID) : SessionMutation :=
  { m with device := some id }

/-- Modelled from the spec: the accessor `SessionMutation.DeviceIDs`, the ids
of the `device` edge. -/
def SessionMutation.DeviceIDs (m : SessionMutation) : List schema.ID :=
  match m.device with
  | some id => [id]
  | none => []

/-- A value of the interface `Mutation`: a `*SessionMutation` (its address in
the world) or a mutation of another dynamic type. -/
inductive Mutation where
  | session (p : Nat)
  | other (kind : Nat)
  deriving DecidableEq, Repr

/-- A value of the interface `Value` returned by a mutator: a `*Session` or a
value of another dynamic type (nil included). -/
inductive Value where
  | node (n : Session)
  | other (kind : Nat)
  deriving DecidableEq, Repr

/-- Observable actions, recorded in order in `World.log`. -/
inductive Event where
  /-- `Save` evaluated `hooks[i](mut)` for the builder at address `builder`. -/
  | hookCall (builder : Nat) (i : Nat)
  /-- A call `sqlgraph.CreateNode(ctx, driver, spec)`. -/
  | CreateNode (spec : CreateSpec)
  /-- A call `sqlgraph.BatchCreate(ctx, driver, spec)`. -/
  | BatchCreate (spec : BatchCreateSpec)
  /-- An action that the body of a hook performs. -/
  | hookRan (tag : Nat)
  deriving DecidableEq, Repr

/-- The mutable state around a call.
* `muts p` is the `SessionMutation` object at address `p`;
* `mutationOf b` is the field `mutation` of the `SessionCreate` at address `b`;
* `err` is the local variable `err` of the running `SessionCreate.Save`, which
  the closure of `Save` captures and assigns;
* `nodes` and `specs` are the slices of the running `SessionCreateBulk.Save`,
  which its closures capture and assign;
* `log` records the observable actions;
* `ext` is the state of the backing store and of the ID generator. -/
structure World where
  muts : Nat → SessionMutation
  mutationOf : Nat → Nat
  err : Option Err
  nodes : List (Option Session)
  specs : List (Option CreateSpec)
  log : List Event
  ext : Nat

/-- The interface `Mutator`: `Mutate(ctx, m)` returns a value or an error and
may change the world. -/
abbrev Mutator := Mutation → World → Except Err Value × World

/-- The type `Hook = func(Mutator) Mutator`; `none` is the nil hook. -/
abbrev Hook := Option (Mutator → Mutator)

/-- The collaborators of `session_create.go` that are declared elsewhere. -/
structure Env where
  /-- The generator `session.DefaultID()`, reading and advancing `World.ext`. -/
  session_DefaultID : Nat → schema.ID × Nat
  /-- The validator `session.IDValidator`: `none` is the nil error. -/
  session_IDValidator : schema.ID → Option Err
  /-- The executor `sqlgraph.CreateNode`: its error, the `ID.Value` it leaves in
  the spec, and the new state of the store. -/
  CreateNode : CreateSpec → Nat → (Option Err × IDValue) × Nat
  /-- The executor `sqlgraph.BatchCreate`: its error and the new state of the store. -/
  BatchCreate : BatchCreateSpec → Nat → Option Err × Nat
  /-- The predicate `sqlgraph.IsConstraintError`. -/
  IsConstraintError : Err → Bool
  /-- The method `(*schema.ID).Scan` on a driver value. -/
  Scan : Nat → Except Err schema.ID
  session_Table : String
  session_FieldID : String
  session_DeviceTable : String
  session_DeviceColumn : String
  device_FieldID : String

/-- The constant `field.TypeBytes`. -/
def field.TypeBytes : String := "bytes"

/-- The constant `sqlgraph.M2O`. -/
def sqlgraph.M2O : String := "M2O"

/-- Store `m` at address `p`. -/
def World.setMut (w : World) (p : Nat) (m : SessionMutation) : World :=
  { w with muts := fun q => if q = p then m else w.muts q }

/-- Assign the field `mutation` of the builder at address `b`. -/
def World.setMutationOf (w : World) (b : Nat) (p : Nat) : World :=
  { w with mutationOf := fun c => if c = b then p else w.mutationOf c }

/-- Append one event to the log. -/
def World.emit (w : World) (e : Event) : World :=
  { w with log := w.log ++ [e] }

/-! ## `SessionCreate` -/

/-- The builder `SessionCreate`.  `ref` is the address of the builder: its field
`mutation`, which the mutators reassign, is `World.mutationOf ref`. -/
structure SessionCreate where
  ref : Nat
  hooks : List Hook
  conflict : List ConflictOption

/-- The mutation the builder currently points to, `sc.mutation`. -/
def SessionCreate.mutation (sc : SessionCreate) (w : World) : Nat := w.mutationOf sc.ref

/-- The method `SessionCreate.SetID`. -/
def SessionCreate.SetID (sc : SessionCreate) (s : schema.ID) (w : World) : World :=
  w.setMut (sc.mutation w) ((w.muts (sc.mutation w)).SetID s)

/-- The method `SessionCreate.SetDeviceID`. -/
def SessionCreate.SetDeviceID (sc : SessionCreate) (id : schema.ID) (w : World) : World :=
  w.setMut (sc.mutation w) ((w.muts (sc.mutation w)).SetDeviceID id)

/-- The method `SessionCreate.defaults`: assign `session.DefaultID()` when no id is set. -/
def SessionCreate.defaults (env : Env) (sc : SessionCreate) (w : World) : World :=
  match (w.muts (sc.mutation w)).ID with
  | some _ => w
  | none =>
    let v := env.session_DefaultID w.ext
    { w.setMut (sc.mutation w) ((w.muts (sc.mutation w)).SetID v.1) with ext := v.2 }

/-- The method `SessionCreate.check`: run the ID validator on a set id. -/
def SessionCreate.check (env : Env) (sc : SessionCreate) (w : World) : Option Err :=
  match (w.muts (sc.mutation w)).ID with
  | some v =>
    match env.session_IDValidator v with
    | some err => some (.ValidationError "id" (.validatorFailed "Session.id" err))
    | none => none
  | none => none

/-- The method `SessionCreate.createSpec`. -/
def SessionCreate.createSpec (env : Env) (sc : SessionCreate) (w : World) : Session × CreateSpec :=
  let m := w.muts (sc.mutation w)
  let _node : Session := { ID := schema.ID.zero, device_sessions := none }
  let _spec : CreateSpec :=
    { Table := env.session_Table
      ID := { Typ := field.TypeBytes, Column := env.session_FieldID, Value := .null }
      OnConflict := sc.conflict
      Edges := [] }
  let r : Session × CreateSpec :=
    match m.ID with
    | some id => ({ _node with ID := id }, { _spec with ID := { _spec.ID with Value := .idPtr id } })
    | none => (_node, _spec)
  let nodes := m.DeviceIDs
  if nodes.length > 0 then
    let edge : EdgeSpec :=
      { Rel := sqlgraph.M2O
        Inverse := true
        Table := env.session_DeviceTable
        Columns := [env.session_DeviceColumn]
        Bidi := false
        Target :=
          { Nodes := nodes
            IDSpec := { Typ := field.TypeBytes, Column := env.device_FieldID, Value := .null } } }
    ({ r.1 with device_sessions := nodes.head? }, { r.2 with Edges := r.2.Edges ++ [edge] })
  else r

/-- The method `SessionCreate.sqlSave`. -/
def SessionCreate.sqlSave (env : Env) (sc : SessionCreate) (w : World) : Except Err Session × World :=
  let ns := sc.createSpec env w
  let r := env.CreateNode ns.2 w.ext
  let w1 : World := { w.emit (.CreateNode ns.2) with ext := r.2 }
  match r.1.1 with
  | some err =>
    if env.IsConstraintError err then (.error (.ConstraintError err), w1) else (.error err, w1)
  | none =>
    match r.1.2 with
    | .null => (.ok ns.1, w1)
    | .idPtr id => (.ok { ns.1 with ID := id }, w1)
    | .raw v =>
      match env.Scan v with
      | .error err => (.error err, w1)
      | .ok id => (.ok { ns.1 with ID := id }, w1)

/-- The closure `MutateFunc(func(ctx, m) ...)` of `SessionCreate.Save` (lines 82 to 97):
the innermost mutator, which checks, persists and stamps the mutation. -/
def SessionCreate.mutateFunc (env : Env) (sc : SessionCreate) : Mutator := fun m w =>
  match m with
  | .other _ => (.error .unexpectedMutationType, w)
  | .session mutation =>
    match sc.check env w with
    | some e => (.error e, { w with err := some e })
    | none =>
      let w1 := ({ w with err := none } : World).setMutationOf sc.ref mutation
      match sc.sqlSave env w1 with
      | (.error e, w2) => (.error e, { w2 with err := some e })
      | (.ok node, w2) =>
        let w3 : World := { w2 with err := none }
        (.ok (.node node), w3.setMut mutation { w3.muts mutation with id := some node.ID, done := true })

/-- The loops `for i := len(hooks) - 1; i >= 0; i-- { ... mut = hooks[i](mut) }`
of both `Save` methods, started with `n = len(hooks)`: the composed mutator,
or `none` when a nil hook is reached, with the hook calls made on the way. -/
def applyHooks (ref : Nat) (hooks : List Hook) : Nat → Mutator → Option Mutator × List Event
  | 0, mutator => (some mutator, [])
  | i + 1, mutator =>
    match hooks.getD i none with
    | none => (none, [])
    | some h =>
      let r := applyHooks ref hooks i (h mutator)
      (r.1, Event.hookCall ref i :: r.2)

/-- The end of the hook branch of `SessionCreate.Save` (lines 104 to 114): run the
composed mutator on the mutation of the builder and assert the type of its value.
The error returned with a node is the captured variable `err`. -/
def SessionCreate.runMutator (sc : SessionCreate) (mutator : Mutator) (w : World) :
    (Option Session × Option Err) × World :=
  match mutator (.session (sc.mutation w)) w with
  | (.error e, w1) => ((none, some e), w1)
  | (.ok (.other _), w1) => ((none, some .unexpectedNodeType), w1)
  | (.ok (.node nv), w1) => ((some nv, w1.err), w1)

/-- The method `SessionCreate.Save`.  The result is the Go pair `(node, err)`. -/
def SessionCreate.Save (env : Env) (sc : SessionCreate) (w : World) :
    (Option Session × Option Err) × World :=
  let w0 := sc.defaults env { w with err := none }
  if sc.hooks.length = 0 then
    match sc.check env w0 with
    | some e => ((none, some e), { w0 with err := some e })
    | none =>
      match sc.sqlSave env w0 with
      | (.error e, w1) => ((none, some e), { w1 with err := some e })
      | (.ok node, w1) => ((some node, none), { w1 with err := none })
  else
    let r := applyHooks sc.ref sc.hooks sc.hooks.length (sc.mutateFunc env)
    let w1 : World := { w0 with log := w0.log ++ r.2 }
    match r.1 with
    | none => ((none, some .uninitializedHook), w1)
    | some mutator => sc.runMutator mutator w1

/-- The method `SessionCreate.SaveX`. -/
def SessionCreate.SaveX (env : Env) (sc : SessionCreate) (w : World) :
    Outcome (Option Session) × World :=
  match sc.Save env w with
  | ((_, some e), w1) => (.panic (.error e), w1)
  | ((v, none), w1) => (.ret v, w1)

/-- The method `SessionCreate.Exec`. -/
def SessionCreate.Exec (env : Env) (sc : SessionCreate) (w : World) : Option Err × World :=
  ((sc.Save env w).1.2, (sc.Save env w).2)

/-- The method `SessionCreate.ExecX`. -/
def SessionCreate.ExecX (env : Env) (sc : SessionCreate) (w : World) : Outcome Unit × World :=
  match sc.Exec env w with
  | (some e, w1) => (.panic (.error e), w1)
  | (none, w1) => (.ret (), w1)

/-! ## Upsert of one entity -/

/-- The builder `SessionUpsertOne`, wrapping the create builder it configures. -/
structure SessionUpsertOne where
  create : SessionCreate

/-- The method `SessionCreate.OnConflict`: the builder is left with `opts` as its
conflict list and is wrapped in the result. -/
def SessionCreate.OnConflict (sc : SessionCreate) (opts : List ConflictOption) : SessionUpsertOne :=
  { create := { sc with conflict := opts } }

/-- The method `SessionCreate.OnConflictColumns`. -/
def SessionCreate.OnConflictColumns (sc : SessionCreate) (columns : List String) :
    SessionUpsertOne :=
  { create := { sc with conflict := sc.conflict ++ [ConflictOption.ConflictColumns columns] } }

/-- The method `SessionUpsertOne.Ignore`. -/
def SessionUpsertOne.Ignore (u : SessionUpsertOne) : SessionUpsertOne :=
  { create := { u.create with conflict := u.create.conflict ++ [ConflictOption.ResolveWithIgnore] } }

/-- The method `SessionUpsertOne.DoNothing`. -/
def SessionUpsertOne.DoNothing (u : SessionUpsertOne) : SessionUpsertOne :=
  { create := { u.create with conflict := u.create.conflict ++ [ConflictOption.DoNothing] } }

/-- The method `SessionUpsertOne.Exec`. -/
def SessionUpsertOne.Exec (env : Env) (u : SessionUpsertOne) (w : World) : Option Err × World :=
  if u.create.conflict.length = 0 then
    (some (.errorsNew "ent: missing options for SessionCreate.OnConflict"), w)
  else u.create.Exec env w

/-- The method `SessionUpsertOne.ExecX`. -/
def SessionUpsertOne.ExecX (env : Env) (u : SessionUpsertOne) (w : World) : Outcome Unit × World :=
  match u.create.Exec env w with
  | (some e, w1) => (.panic (.error e), w1)
  | (none, w1) => (.ret (), w1)

/-! ## `SessionCreateBulk` -/

/-- The builder `SessionCreateBulk`. -/
structure SessionCreateBulk where
  builders : List SessionCreate
  conflict : List ConflictOption

/-- The middle of the closure of `SessionCreateBulk.Save` for the builder at
index `i` (lines 370 to 381): trigger the mutator of the next builder on its
mutation or, for the last builder, call `sqlgraph.BatchCreate` on all the specs.
`tail` holds `mutators[i+1:]`; the result is the variable `err`. -/
def SessionCreateBulk.nextOrCreate (env : Env) (scb : SessionCreateBulk) (i : Nat)
    (tail : List (Option Mutator)) (w : World) : Option Err × World :=
  if i < scb.builders.length - 1 then
    match tail.head?, scb.builders[i + 1]? with
    | some (some next), some b1 =>
      match next (.session (b1.mutation w)) w with
      | (.error e, w1) => (some e, w1)
      | (.ok _, w1) => (none, w1)
    | _, _ => (some .fault, w)
  else
    let spec : BatchCreateSpec := { Nodes := w.specs, OnConflict := scb.conflict }
    let x := env.BatchCreate spec w.ext
    let w1 : World := { w.emit (.BatchCreate spec) with ext := x.2 }
    match x.1 with
    | some err =>
      if env.IsConstraintError err then (some (.ConstraintError err), w1) else (some err, w1)
    | none => (none, w1)

/-- The closure `MutateFunc(func(ctx, m) ...)` of `SessionCreateBulk.Save` for
the builder at index `i` (lines 359 to 388).  `tail` holds `mutators[i+1:]`.
The node read back from `nodes[i]` is the one stored a few lines above. -/
def SessionCreateBulk.mutateFunc (env : Env) (scb : SessionCreateBulk) (i : Nat)
    (builder : SessionCreate) (tail : List (Option Mutator)) : Mutator := fun m w =>
  match m with
  | .other _ => (.error .unexpectedMutationType, w)
  | .session mutation =>
    match builder.check env w with
    | some e => (.error e, w)
    | none =>
      let w1 := w.setMutationOf builder.ref mutation
      let ns := builder.createSpec env w1
      let w2 : World :=
        { w1 with nodes := w1.nodes.set i (some ns.1), specs := w1.specs.set i (some ns.2) }
      let r := SessionCreateBulk.nextOrCreate env scb i tail w2
      match r.1 with
      | some e => (.error e, r.2)
      | none =>
        let node := (r.2.nodes.getD i none).getD ns.1
        (.ok (.node node),
          r.2.setMut mutation { r.2.muts mutation with id := some node.ID, done := true })

/-- The slice `mutators[i:]` that the loop of `SessionCreateBulk.Save` fills for
the builders `scb.builders[i:]`; an entry is `none` when the hooks of its
builder contain nil, in which case the loop panics before assigning it. -/
def SessionCreateBulk.mutators (env : Env) (scb : SessionCreateBulk) :
    Nat → List SessionCreate → List (Option Mutator)
  | _, [] => []
  | i, builder :: rest =>
    let tail := SessionCreateBulk.mutators env scb (i + 1) rest
    (applyHooks builder.ref builder.hooks builder.hooks.length
      (SessionCreateBulk.mutateFunc env scb i builder tail)).1 :: tail

/-- The effects of the loop `for i := range scb.builders` of
`SessionCreateBulk.Save` on the builders `scb.builders[i:]`: defaults and the
hook calls of each builder in turn; `false` when a nil hook is called. -/
def SessionCreateBulk.prepare (env : Env) (scb : SessionCreateBulk) :
    Nat → List SessionCreate → World → Bool × World
  | _, [], w => (true, w)
  | i, builder :: rest, w =>
    let w1 := builder.defaults env w
    let r := applyHooks builder.ref builder.hooks builder.hooks.length
      (SessionCreateBulk.mutateFunc env scb i builder (SessionCreateBulk.mutators env scb (i + 1) rest))
    let w2 : World := { w1 with log := w1.log ++ r.2 }
    match r.1 with
    | none => (false, w2)
    | some _ => SessionCreateBulk.prepare env scb (i + 1) rest w2

/-- The world after the `defaults` of every builder of the batch, in order: the
state in which the closures of `SessionCreateBulk.Save` check the builders and
build their specs when the hooks change neither mutations nor builders. -/
def SessionCreateBulk.defaultsAll (env : Env) (scb : SessionCreateBulk) (w : World) : World :=
  scb.builders.foldl (fun v b => b.defaults env v) w

/-- The method `SessionCreateBulk.Save`.  The result is the Go pair
`(nodes, err)`, where `none` is the nil slice and a `none` entry a nil pointer. -/
def SessionCreateBulk.Save (env : Env) (scb : SessionCreateBulk) (w : World) :
    Outcome (Option (List (Option Session)) × Option Err) × World :=
  let w0 : World :=
    { w with
      nodes := List.replicate scb.builders.length none
      specs := List.replicate scb.builders.length none }
  let mutators := SessionCreateBulk.mutators env scb 0 scb.builders
  match SessionCreateBulk.prepare env scb 0 scb.builders w0 with
  | (false, w1) => (.panic .runtime, w1)
  | (true, w1) =>
    if mutators.length > 0 then
      match mutators.head?, scb.builders.head? with
      | some (some m0), some b0 =>
        match m0 (.session (b0.mutation w1)) w1 with
        | (.error e, w2) => (.ret (none, some e), w2)
        | (.ok _, w2) => (.ret (some w2.nodes, none), w2)
      | _, _ => (.panic .runtime, w1)
    else (.ret (some w1.nodes, none), w1)

/-- The method `SessionCreateBulk.SaveX`. -/
def SessionCreateBulk.SaveX (env : Env) (scb : SessionCreateBulk) (w : World) :
    Outcome (Option (List (Option Session))) × World :=
  match scb.Save env w with
  | (.panic p, w1) => (.panic p, w1)
  | (.ret (_, some e), w1) => (.panic (.error e), w1)
  | (.ret (v, none), w1) => (.ret v, w1)

/-- The method `SessionCreateBulk.Exec`. -/
def SessionCreateBulk.Exec (env : Env) (scb : SessionCreateBulk) (w : World) :
    Outcome (Option Err) × World :=
  match scb.Save env w with
  | (.panic p, w1) => (.panic p, w1)
  | (.ret (_, err), w1) => (.ret err, w1)

/-- The method `SessionCreateBulk.ExecX`. -/
def SessionCreateBulk.ExecX (env : Env) (scb : SessionCreateBulk) (w : World) :
    Outcome Unit × World :=
  match scb.Exec env w with
  | (.panic p, w1) => (.panic p, w1)
  | (.ret (some e), w1) => (.panic (.error e), w1)
  | (.ret none, w1) => (.ret (), w1)

/-! ## Upsert of a batch -/

/-- The builder `SessionUpsertBulk`, wrapping the bulk builder it configures. -/
structure SessionUpsertBulk where
  create : SessionCreateBulk

/-- The method `SessionCreateBulk.OnConflict`. -/
def SessionCreateBulk.OnConflict (scb : SessionCreateBulk) (opts : List ConflictOption) :
    SessionUpsertBulk :=
  { create := { scb with conflict := opts } }

/-- The method `SessionCreateBulk.OnConflictColumns`. -/
def SessionCreateBulk.OnConflictColumns (scb : SessionCreateBulk) (columns : List String) :
    SessionUpsertBulk :=
  { create := { scb with conflict := scb.conflict ++ [ConflictOption.ConflictColumns columns] } }

/-- The loop `for i, b := range u.create.builders` of `SessionUpsertBulk.Exec`,
on the builders from index `i` on: the index at which it returns, if any. -/
def SessionUpsertBulk.conflictIndex : Nat → List SessionCreate → Option Nat
  | _, [] => none
  | i, b :: rest =>
    if b.conflict.length ≠ 0 then some i else SessionUpsertBulk.conflictIndex (i + 1) rest

/-- The method `SessionUpsertBulk.Exec`. -/
def SessionUpsertBulk.Exec (env : Env) (u : SessionUpsertBulk) (w : World) :
    Outcome (Option Err) × World :=
  match SessionUpsertBulk.conflictIndex 0 u.create.builders with
  | some i => (.ret (some (.onConflictSetForBuilder i)), w)
  | none =>
    if u.create.conflict.length = 0 then
      (.ret (some (.errorsNew "ent: missing options for SessionCreateBulk.OnConflict")), w)
    else u.create.Exec env w

/-- The method `SessionUpsertBulk.ExecX`. -/
def SessionUpsertBulk.ExecX (env : Env) (u : SessionUpsertBulk) (w : World) :
    Outcome Unit × World :=
  match u.create.Exec env w with
  | (.panic p, w1) => (.panic p, w1)
  | (.ret (some e), w1) => (.panic (.error e), w1)
  | (.ret none, w1) => (.ret (), w1)

/-! ## Hooks that delegate -/

/-- The `sqlgraph.CreateNode` calls recorded in a log, in order. -/
def nodeCalls (log : List Event) : List CreateSpec :=
  log.filterMap fun e =>
    match e with
    | .CreateNode spec => some spec
    | _ => none

/-- The `sqlgraph.BatchCreate` calls recorded in a log, in order. -/
def batchCalls (log : List Event) : List BatchCreateSpec :=
  log.filterMap fun e =>
    match e with
    | .BatchCreate spec => some spec
    | _ => none

/-- A hook that delegates: its mutator runs `before`, calls the next mutator
exactly once (on a mutation of its choice), and runs `after` on what the next
mutator returned, returning an error whenever the next mutator did.  Its own
code neither reaches the slices of a running bulk save nor calls the batch
executor. -/
def Delegates (f : Mutator → Mutator) : Prop :=
  ∃ (before : Mutation → World → Mutation × World)
    (after : Mutation → World → Except Err Value × World → Except Err Value × World),
    (∀ next m w, f next m w = after m w (next (before m w).1 (before m w).2)) ∧
    (∀ m w, (before m w).2.nodes = w.nodes ∧ (before m w).2.specs = w.specs ∧
      batchCalls (before m w).2.log = batchCalls w.log) ∧
    (∀ m w r, (after m w r).2.nodes = r.2.nodes ∧ (after m w r).2.specs = r.2.specs ∧
      batchCalls (after m w r).2.log = batchCalls r.2.log) ∧
    (∀ m w e v, ∃ e1, (after m w (.error e, v)).1 = .error e1)

/-- Two worlds agree when they hold the same mutations, the same builders, the
same variables of the running save (`err`, `nodes`, `specs`) and the same
executor calls in their logs: they differ at most in the store and in the other
events of the log. -/
def World.agrees (v w : World) : Prop :=
  v.muts = w.muts ∧ v.mutationOf = w.mutationOf ∧ v.err = w.err ∧ v.nodes = w.nodes ∧
    v.specs = w.specs ∧ nodeCalls v.log = nodeCalls w.log ∧
    batchCalls v.log = batchCalls w.log

/-- A hook that observes: its mutator runs `before`, calls the next mutator
exactly once on the mutation it received, runs `after`, and returns what the next
mutator returned.  Its own code changes neither the mutations nor the builders,
does not reach the variables of the running save and does not call the executor. -/
def Observes (f : Mutator → Mutator) : Prop :=
  ∃ (before : Mutation → World → World) (after : Mutation → World → World → World),
    (∀ next m w, f next m w =
      ((next m (before m w)).1, after m w (next m (before m w)).2)) ∧
    (∀ m w, (before m w).agrees w) ∧ (∀ m w v, (after m w v).agrees v)

/-- The invariant of the closure chain of `SessionCreateBulk.Save` under hooks
that observe, for the mutator `M` of the builder `b` at index `i`, where `bs`
are the builders from `i` on.  Run on the mutation of `b`: when the checks of
all the builders `bs` pass, `M` makes exactly one `BatchCreate` call, on the
entries of `specs` below `i` followed by the specs of `bs` in order; when one
fails, `M` makes no call and returns an error. -/
def SessionCreateBulk.exactInv (env : Env) (scb : SessionCreateBulk) (i : Nat)
    (bs : List SessionCreate) (b : SessionCreate) (M : Mutator) : Prop :=
  ∀ w : World, w.specs.length = scb.builders.length →
    ((∀ c ∈ bs, c.check env w = none) →
      batchCalls (M (.session (b.mutation w)) w).2.log =
        batchCalls w.log ++
          [{ Nodes := w.specs.take i ++ bs.map (fun c => some (c.createSpec env w).2)
             OnConflict := scb.conflict }]) ∧
    ((∃ c ∈ bs, c.check env w ≠ none) →
      batchCalls (M (.session (b.mutation w)) w).2.log = batchCalls w.log ∧
        ∃ e, (M (.session (b.mutation w)) w).1 = .error e)

/-- What a batch spec passed to `sqlgraph.BatchCreate` by the closure chain from
index `i` on looks like, for the slice `specs` the chain started with: the
conflict list of the batch, one entry per builder, the entries below `i` as they
were, and every entry from `i` on built by `createSpec` from the builder of that
index. -/
def SessionCreateBulk.goodSpec (env : Env) (scb : SessionCreateBulk) (i : Nat)
    (specs : List (Option CreateSpec)) (spec : BatchCreateSpec) : Prop :=
  spec.OnConflict = scb.conflict ∧ spec.Nodes.length = scb.builders.length ∧
    (∀ j, j < i → spec.Nodes[j]? = specs[j]?) ∧
    (∀ j c, i ≤ j → scb.builders[j]? = some c →
      ∃ v, spec.Nodes[j]? = some (some (c.createSpec env v).2))

/-- The invariant of the closure chain of `SessionCreateBulk.Save`, for a mutator
`M` standing at index `i`: `M` keeps the length of `nodes` and `specs` and their
entries below `i`; when it succeeds every entry of `nodes` from `i` on holds a
node; and either it fails without any `BatchCreate` call, or it makes exactly
one, with a spec as `goodSpec` describes. -/
def SessionCreateBulk.chainInv (env : Env) (scb : SessionCreateBulk) (i : Nat)
    (M : Mutator) : Prop :=
  ∀ (m : Mutation) (w : World), w.nodes.length = scb.builders.length →
    w.specs.length = scb.builders.length →
    (M m w).2.nodes.length = w.nodes.length ∧ (M m w).2.specs.length = w.specs.length ∧
      (∀ j, j < i → (M m w).2.nodes[j]? = w.nodes[j]? ∧ (M m w).2.specs[j]? = w.specs[j]?) ∧
      (∀ v, (M m w).1 = .ok v → ∀ j, i ≤ j → j < scb.builders.length →
        ∃ n, (M m w).2.nodes[j]? = some (some n)) ∧
      (((∃ e, (M m w).1 = .error e) ∧ batchCalls (M m w).2.log = batchCalls w.log) ∨
        ∃ spec, batchCalls (M m w).2.log = batchCalls w.log ++ [spec] ∧
          SessionCreateBulk.goodSpec env scb i w.specs spec)

/-- The middle of the closure of the builder at index `i`, seen as a mutator, so
that the invariant of the chain can be stated for it. -/
def SessionCreateBulk.nextMutator (env : Env) (scb : SessionCreateBulk) (i : Nat)
    (tail : List (Option Mutator)) : Mutator := fun _ w =>
  match SessionCreateBulk.nextOrCreate env scb i tail w with
  | (some e, w1) => (.error e, w1)
  | (none, w1) => (.ok (.other 0), w1)

/-! ## The composition order as the specification words it -/

/-- The chain of the specification text, "hook[N-1] wraps ... wraps hook[0] wraps
the base persistence function": the hook registered last is outermost. -/
def specHookChain (fs : List (Mutator → Mutator)) (base : Mutator) : Mutator :=
  fs.foldl (fun next h => h next) base

/-! ## Concrete inputs -/

/-- The id whose 64 bytes are all `b`. -/
def idOf (b : Nat) : schema.ID := ⟨List.replicate 64 b, List.length_replicate 64 b⟩

/-- A collaborator set: the generator yields the ids `idOf 1`, `idOf 2`, ... in turn,
the validator rejects the ids whose first byte is 255, the executors succeed and
leave the spec as is. -/
def env0 : Env where
  session_DefaultID := fun n => (idOf (n + 1), n + 1)
  session_IDValidator := fun id =>
    if id.val.head? = some 255 then some (.external 1) else none
  CreateNode := fun spec n => ((none, spec.ID.Value), n + 1)
  BatchCreate := fun _ n => (none, n + 1)
  IsConstraintError := fun _ => false
  Scan := fun _ => .error (.external 3)
  session_Table := "sessions"
  session_FieldID := "id"
  session_DeviceTable := "sessions"
  session_DeviceColumn := "device_sessions"
  device_FieldID := "id"

/-- A world of fresh builders: the builder at address `b` points to the mutation
at address `b`, and no mutation has an id or an edge yet. -/
def world0 : World where
  muts := fun _ => { id := none, device := none, done := false }
  mutationOf := fun b => b
  err := none
  nodes := []
  specs := []
  log := []
  ext := 0

/-- A hook that records `tag` and delegates to the next mutator. -/
def tracingHook (tag : Nat) : Mutator → Mutator :=
  fun next m w => next m (w.emit (.hookRan tag))

/-- A hook that sets the id of the mutation in place and delegates. -/
def setIDHook (id : schema.ID) : Mutator → Mutator :=
  fun next m w =>
    match m with
    | .session p => next m (w.setMut p ((w.muts p).SetID id))
    | .other _ => next m w

/-- A hook that does not delegate and returns a node of its own. -/
def replaceHook (n : Session) : Mutator → Mutator :=
  fun _ _ w => (.ok (.node n), w)

/-- A fresh builder at address `b` with the given hooks and conflict list. -/
def builder0 (b : Nat) (hooks : List Hook) (conflict : List ConflictOption) : SessionCreate :=
  { ref := b, hooks := hooks, conflict := conflict }

/-- The spec that `createSpec` builds under `env0` for an id and no edge. -/
def spec0 (id : schema.ID) (conflict : List ConflictOption) : CreateSpec :=
  { Table := "sessions"
    ID := { Typ := "bytes", Column := "id", Value := .idPtr id }
    OnConflict := conflict
    Edges := [] }

/-- A fresh builder with two tracing hooks: tag 0 registered first, tag 1 last. -/
def twoHooks : SessionCreate :=
  builder0 0 [some (tracingHook 0), some (tracingHook 1)] []

/-- A fresh builder whose first hook slot is nil and whose second is a tracing hook. -/
def nilThenHook : SessionCreate :=
  builder0 0 [none, some (tracingHook 1)] []

/-- The world in which the mutation of the builder at address 0 has the
explicitly set id `idOf 255`, which the validator of `env0` rejects. -/
def worldBadID : World :=
  (builder0 0 [] []).SetID (idOf 255) world0

/-- A batch of two fresh builders, the second with a hook that does not delegate. -/
def batchWithReplaceHook : SessionCreateBulk :=
  { builders :=
      [builder0 0 [] [], builder0 1 [some (replaceHook { ID := idOf 9, device_sessions := none })] []]
    conflict := [] }

/-- A hook that delegates and, when the next mutator fails, returns a value and
no error. -/
def swallowHook : Mutator → Mutator :=
  fun next m w =>
    match next m w with
    | (.error _, w1) => (.ok (.other 0), w1)
    | (.ok v, w1) => (.ok v, w1)

/-- A hook that calls the next mutator twice. -/
def twiceHook : Mutator → Mutator :=
  fun next m w => next m (next m w).2

/-- A fresh builder with one tracing hook. -/
def tracedBuilder : SessionCreate :=
  builder0 0 [some (tracingHook 0)] []

/-- A batch of two fresh builders with tracing hooks, one on the first builder and
two on the second. -/
def tracedBatch : SessionCreateBulk :=
  { builders :=
      [builder0 0 [some (tracingHook 0)] [],
        builder0 1 [some (tracingHook 1), some (tracingHook 2)] []]
    conflict := [] }

/-- A batch of two fresh builders, the second with the hook that swallows errors. -/
def batchWithSwallowHook : SessionCreateBulk :=
  { builders := [builder0 0 [] [], builder0 1 [some swallowHook] []], conflict := [] }

/-- The world in which the mutation of the builder at address 1 has the
explicitly set id `idOf 255`, which the validator of `env0` rejects. -/
def worldBadID1 : World :=
  (builder0 1 [] []).SetID (idOf 255) world0

/-- The collaborators of `env0`, except that the executor `CreateNode`, on a spec
with conflict options, writes the id `idOf 7` of the row it updated back into the
ID value of the spec. -/
def envWriteBack : Env :=
  { env0 with
    CreateNode := fun spec n =>
      if spec.OnConflict.length = 0 then ((none, spec.ID.Value), n + 1)
      else ((none, .idPtr (idOf 7)), n + 1) }

/-! # Theorems -/

/-! ## Upsert: missing options, per-item conflict lists, the panicking variants -/

/-- C6. `SessionUpsertOne.Exec` on a builder whose conflict list is empty returns
the fixed error "ent: missing options for SessionCreate.OnConflict" and leaves
the world untouched: no defaults, no check, no hook and no executor call. -/
theorem upsertOne_exec_missing_options (env : Env) (u : SessionUpsertOne) (w : World)
    (h : u.create.conflict = []) :
    u.Exec env w = (some (.errorsNew "ent: missing options for SessionCreate.OnConflict"), w) := by
  simp [SessionUpsertOne.Exec, h]

/-- C6, at a fresh builder with one hook and no conflict option. -/
theorem upsertOne_exec_missing_options_witness :
    (builder0 0 [some (tracingHook 0)] []).conflict = [] ∧
    SessionUpsertOne.Exec env0 ⟨builder0 0 [some (tracingHook 0)] []⟩ world0 =
      (some (.errorsNew "ent: missing options for SessionCreate.OnConflict"), world0) :=
  ⟨rfl, upsertOne_exec_missing_options env0 ⟨builder0 0 [some (tracingHook 0)] []⟩ world0 rfl⟩

/-- The loop of `SessionUpsertBulk.Exec` started at index `i` stops at the first
builder with a non-empty conflict list. -/
theorem conflictIndex_spec (bs : List SessionCreate) (i : Nat)
    (h : ∃ b ∈ bs, b.conflict ≠ []) :
    ∃ k b, bs[k]? = some b ∧ b.conflict ≠ [] ∧
      (∀ j c, j < k → bs[j]? = some c → c.conflict = []) ∧
      SessionUpsertBulk.conflictIndex i bs = some (i + k) := by
  induction bs generalizing i with
  | nil => simp at h
  | cons b rest ih =>
    by_cases hb : b.conflict = []
    · have h1 : ∃ c ∈ rest, c.conflict ≠ [] := by
        obtain ⟨c, hc, hne⟩ := h
        rcases List.mem_cons.mp hc with rfl | hc
        · exact absurd hb hne
        · exact ⟨c, hc, hne⟩
      obtain ⟨k, c, hk, hne, hlt, hidx⟩ := ih (i + 1) h1
      refine ⟨k + 1, c, by simpa using hk, hne, ?_, ?_⟩
      · intro j d hj hd
        cases j with
        | zero =>
          simp at hd
          subst hd
          exact hb
        | succ j =>
          simp at hd
          exact hlt j d (by omega) hd
      · simp only [SessionUpsertBulk.conflictIndex, hb, List.length_nil, ne_eq,
          not_true_eq_false, if_false]
        rw [hidx]
        congr 1
        omega
    · refine ⟨0, b, by simp, hb, ?_, ?_⟩
      · intro j c hj
        omega
      · have : b.conflict.length ≠ 0 := by
          intro h0
          exact hb (List.length_eq_zero.mp h0)
        simp [SessionUpsertBulk.conflictIndex, this]

/-- C8. When some builder of the batch carries a non-empty conflict list,
`SessionUpsertBulk.Exec` returns the configuration error that names the index of
the first such builder and leaves the world untouched.  The batch-level list is
arbitrary here, so the error also wins over "missing options" when that list is
empty. -/
theorem upsertBulk_exec_item_conflict (env : Env) (u : SessionUpsertBulk) (w : World)
    (h : ∃ b ∈ u.create.builders, b.conflict ≠ []) :
    ∃ i b, u.create.builders[i]? = some b ∧ b.conflict ≠ [] ∧
      (∀ j c, j < i → u.create.builders[j]? = some c → c.conflict = []) ∧
      u.Exec env w = (.ret (some (.onConflictSetForBuilder i)), w) := by
  obtain ⟨k, b, hk, hne, hlt, hidx⟩ := conflictIndex_spec u.create.builders 0 h
  refine ⟨k, b, hk, hne, hlt, ?_⟩
  simp [SessionUpsertBulk.Exec, hidx]

/-- C8, at a batch with an empty batch-level list whose second builder carries
a conflict option: the error names index 1. -/
theorem upsertBulk_exec_item_conflict_witness :
    ∃ i b, [builder0 0 [] [], builder0 1 [] [.DoNothing]][i]? = some b ∧ b.conflict ≠ [] ∧
      (∀ j c, j < i → [builder0 0 [] [], builder0 1 [] [.DoNothing]][j]? = some c →
        c.conflict = []) ∧
      SessionUpsertBulk.Exec env0 ⟨⟨[builder0 0 [] [], builder0 1 [] [.DoNothing]], []⟩⟩ world0 =
        (.ret (some (.onConflictSetForBuilder i)), world0) :=
  upsertBulk_exec_item_conflict env0 ⟨⟨[builder0 0 [] [], builder0 1 [] [.DoNothing]], []⟩⟩ world0
    ⟨builder0 1 [] [.DoNothing], by simp, by simp [builder0]⟩

/-- C7. `ExecX` of the upsert builders bypasses the checks of `Exec`.  With no
conflict option, `SessionUpsertOne.Exec` returns "missing options" without any
executor call, while `SessionUpsertOne.ExecX` does not panic and calls
`sqlgraph.CreateNode`.  With a per-item conflict list in the batch,
`SessionUpsertBulk.Exec` returns the configuration error without any executor
call, while `SessionUpsertBulk.ExecX` does not panic and calls
`sqlgraph.BatchCreate`. -/
theorem upsert_execX_skips_checks :
    (SessionUpsertOne.Exec env0 ⟨builder0 0 [] []⟩ world0).1 =
        some (.errorsNew "ent: missing options for SessionCreate.OnConflict") ∧
      (SessionUpsertOne.Exec env0 ⟨builder0 0 [] []⟩ world0).2.log = [] ∧
      (SessionUpsertOne.ExecX env0 ⟨builder0 0 [] []⟩ world0).1 = .ret () ∧
      (SessionUpsertOne.ExecX env0 ⟨builder0 0 [] []⟩ world0).2.log =
        [.CreateNode (spec0 (idOf 1) [])] ∧
      (SessionUpsertBulk.Exec env0
          ⟨⟨[builder0 0 [] [], builder0 1 [] [.DoNothing]], []⟩⟩ world0).1 =
        .ret (some (.onConflictSetForBuilder 1)) ∧
      (SessionUpsertBulk.Exec env0
          ⟨⟨[builder0 0 [] [], builder0 1 [] [.DoNothing]], []⟩⟩ world0).2.log = [] ∧
      (SessionUpsertBulk.ExecX env0
          ⟨⟨[builder0 0 [] [], builder0 1 [] [.DoNothing]], []⟩⟩ world0).1 = .ret () ∧
      (SessionUpsertBulk.ExecX env0
          ⟨⟨[builder0 0 [] [], builder0 1 [] [.DoNothing]], []⟩⟩ world0).2.log =
        [.BatchCreate
          { Nodes := [some (spec0 (idOf 1) []), some (spec0 (idOf 2) [.DoNothing])], OnConflict := [] }] := by
  refine ⟨rfl, rfl, rfl, rfl, rfl, rfl, rfl, rfl⟩

/-! ## `OnConflictColumns` against `OnConflict` -/

/-- C9.  `OnConflictColumns` is documented as calling `OnConflict` and as
equivalent to `OnConflict(sql.ConflictColumns(columns...))`, but it appends to
the conflict list where `OnConflict` replaces it.  On a `SessionCreate` and on
a `SessionCreateBulk` that already hold the option `DoNothing`,
`OnConflictColumns("a")` leaves `[DoNothing, ConflictColumns(a)]` while
`OnConflict(sql.ConflictColumns("a"))` leaves `[ConflictColumns(a)]`. -/
theorem onConflictColumns_appends :
    ((builder0 0 [] [.DoNothing]).OnConflictColumns ["a"]).create.conflict =
        [.DoNothing, .ConflictColumns ["a"]] ∧
      ((builder0 0 [] [.DoNothing]).OnConflict [.ConflictColumns ["a"]]).create.conflict =
        [.ConflictColumns ["a"]] ∧
      ((builder0 0 [] [.DoNothing]).OnConflictColumns ["a"]).create.conflict ≠
        ((builder0 0 [] [.DoNothing]).OnConflict [.ConflictColumns ["a"]]).create.conflict ∧
      (SessionCreateBulk.OnConflictColumns ⟨[], [.DoNothing]⟩ ["a"]).create.conflict =
        [.DoNothing, .ConflictColumns ["a"]] ∧
      (SessionCreateBulk.OnConflict ⟨[], [.DoNothing]⟩ [.ConflictColumns ["a"]]).create.conflict =
        [.ConflictColumns ["a"]] ∧
      (SessionCreateBulk.OnConflictColumns ⟨[], [.DoNothing]⟩ ["a"]).create.conflict ≠
        (SessionCreateBulk.OnConflict ⟨[], [.DoNothing]⟩ [.ConflictColumns ["a"]]).create.conflict := by
  refine ⟨rfl, rfl, by decide, rfl, rfl, by decide⟩

/-- On a `SessionCreate` and on a `SessionCreateBulk` whose conflict list is empty,
`OnConflictColumns(columns...)` and `OnConflict(sql.ConflictColumns(columns...))`
return the same upsert builder. -/
theorem onConflictColumns_eq_onConflict (sc : SessionCreate) (scb : SessionCreateBulk)
    (columns : List String) (h1 : sc.conflict = []) (h2 : scb.conflict = []) :
    sc.OnConflictColumns columns = sc.OnConflict [.ConflictColumns columns] ∧
      scb.OnConflictColumns columns = scb.OnConflict [.ConflictColumns columns] := by
  simp [SessionCreate.OnConflictColumns, SessionCreate.OnConflict,
    SessionCreateBulk.OnConflictColumns, SessionCreateBulk.OnConflict, h1, h2]

/-! ## The hook chain of `Save` -/

/-- The hook loop over hooks that are all non-nil, run from index `n` down:
it wraps the hooks `n-1, ..., 0` around the mutator in that order. -/
theorem applyHooks_map_some (ref : Nat) (fs : List (Mutator → Mutator)) (n : Nat)
    (hn : n ≤ fs.length) (base : Mutator) :
    applyHooks ref (fs.map some) n base =
      (some ((fs.take n).foldr (fun h next => h next) base),
        (List.range n).reverse.map (Event.hookCall ref)) := by
  induction n generalizing base with
  | zero => simp [applyHooks]
  | succ n ih =>
    have hlt : n < fs.length := by omega
    have hget : (fs.map some).getD n none = some fs[n] := by
      rw [List.getD_eq_getElem?_getD]
      simp [List.getElem?_eq_getElem hlt]
    have htake : fs.take (n + 1) = fs.take n ++ [fs[n]] := by
      rw [List.take_succ, List.getElem?_eq_getElem hlt]
      rfl
    simp only [applyHooks, hget]
    rw [ih (by omega), htake, List.foldr_append, List.range_succ]
    simp

/-- The hook loop over a slice whose highest nil entry is at index `pre.length`,
run from index `pre.length + 1 + k` down: it calls the `k` hooks above the nil
entry in descending order and then stops at the nil entry. -/
theorem applyHooks_nil (ref : Nat) (pre : List Hook) (post : List (Mutator → Mutator))
    (k : Nat) (hk : k ≤ post.length) (base : Mutator) :
    applyHooks ref (pre ++ none :: post.map some) (pre.length + 1 + k) base =
      (none, (List.range k).reverse.map (fun j => Event.hookCall ref (pre.length + 1 + j))) := by
  induction k generalizing base with
  | zero =>
    have hget : (pre ++ none :: post.map some).getD pre.length none = none := by
      rw [List.getD_eq_getElem?_getD, List.getElem?_append_right (le_refl _)]
      simp
    show applyHooks ref (pre ++ none :: post.map some) (pre.length + 1) base = _
    simp only [applyHooks, hget]
    rfl
  | succ k ih =>
    have hlt : k < post.length := by omega
    have hget : (pre ++ none :: post.map some).getD (pre.length + 1 + k) none = some post[k] := by
      have h1 : pre.length + 1 + k = pre.length + (k + 1) := by omega
      rw [h1, List.getD_eq_getElem?_getD, List.getElem?_append_right (by omega)]
      simp [List.getElem?_eq_getElem hlt]
    have h2 : pre.length + 1 + (k + 1) = (pre.length + 1 + k) + 1 := by omega
    rw [h2]
    simp only [applyHooks, hget]
    rw [ih (by omega), List.range_succ]
    simp

/-- C1 as stated fails.  With tracing hooks 0 and 1 registered in that order,
`Save` runs hook 0 first and hook 1 next to the persistence call, whereas the
chain of the specification text would run hook 1 first. -/
theorem save_hook_order_counterexample :
    (twoHooks.Save env0 world0).2.log =
        [.hookCall 0 1, .hookCall 0 0, .hookRan 0, .hookRan 1, .CreateNode (spec0 (idOf 1) [])] ∧
      (twoHooks.runMutator
          (specHookChain [tracingHook 0, tracingHook 1] (twoHooks.mutateFunc env0))
          (twoHooks.defaults env0 world0)).2.log =
        [.hookRan 1, .hookRan 0, .CreateNode (spec0 (idOf 1) [])] := by
  refine ⟨rfl, rfl⟩

/-- C1, amended.  For a builder with N >= 1 non-nil hooks, the hook loop (shared
by both `Save` methods) composes `hook[0] (hook[1] (... (hook[N-1] base)))`:
the hook registered first is the outermost one and the hook registered last
wraps the base persistence function.  `SessionCreate.Save` runs exactly that
mutator, after `defaults` and after calling the hooks from index N-1 down to 0,
and `SessionCreateBulk.Save` stores exactly that mutator for the builder. -/
theorem save_hook_order (env : Env) (sc : SessionCreate) (w : World)
    (fs : List (Mutator → Mutator)) (hne : fs ≠ []) (hh : sc.hooks = fs.map some) :
    (∀ ref base, applyHooks ref (fs.map some) fs.length base =
        (some (fs.foldr (fun h next => h next) base),
          (List.range fs.length).reverse.map (Event.hookCall ref))) ∧
      sc.Save env w =
        sc.runMutator (fs.foldr (fun h next => h next) (sc.mutateFunc env))
          { sc.defaults env { w with err := none } with
            log := (sc.defaults env { w with err := none }).log ++
              (List.range fs.length).reverse.map (Event.hookCall sc.ref) } ∧
      (∀ (scb : SessionCreateBulk) (i : Nat) (rest : List SessionCreate),
        SessionCreateBulk.mutators env scb i (sc :: rest) =
          some (fs.foldr (fun h next => h next)
              (SessionCreateBulk.mutateFunc env scb i sc
                (SessionCreateBulk.mutators env scb (i + 1) rest))) ::
            SessionCreateBulk.mutators env scb (i + 1) rest) := by
  have key : ∀ ref base, applyHooks ref (fs.map some) fs.length base =
      (some (fs.foldr (fun h next => h next) base),
        (List.range fs.length).reverse.map (Event.hookCall ref)) := by
    intro ref base
    have := applyHooks_map_some ref fs fs.length (le_refl _) base
    simpa using this
  refine ⟨key, ?_, ?_⟩
  · have hlen : ¬ (fs.length = 0) := by
      intro h0
      exact hne (List.length_eq_zero.mp h0)
    simp only [SessionCreate.Save, hh, List.length_map, hlen, if_false, key]
  · intro scb i rest
    simp only [SessionCreateBulk.mutators, hh, List.length_map, key]

/-- C1 amended, at the builder with two tracing hooks: `Save` runs
`tracingHook 0 (tracingHook 1 base)`. -/
theorem save_hook_order_witness :
    [tracingHook 0, tracingHook 1] ≠ [] ∧
      twoHooks.hooks = [tracingHook 0, tracingHook 1].map some ∧
      twoHooks.Save env0 world0 =
        twoHooks.runMutator (tracingHook 0 (tracingHook 1 (twoHooks.mutateFunc env0)))
          { twoHooks.defaults env0 { world0 with err := none } with
            log := (twoHooks.defaults env0 { world0 with err := none }).log ++
              [.hookCall 0 1, .hookCall 0 0] } :=
  ⟨by simp, rfl,
    (save_hook_order env0 twoHooks world0 [tracingHook 0, tracingHook 1] (by simp) rfl).2.1⟩

/-- C4 as stated fails.  With a nil hook at index 0 and a hook at index 1, `Save`
returns the "uninitialized hook" error, but only after it has called the hook at
index 1 to wrap the mutator. -/
theorem save_nil_hook_counterexample :
    (nilThenHook.Save env0 world0).1 = (none, some .uninitializedHook) ∧
      (nilThenHook.Save env0 world0).2.log = [.hookCall 0 1] := by
  refine ⟨rfl, rfl⟩

/-- C4, amended.  When the hook slice holds a nil entry, the highest one at index
`pre.length`, `Save` returns the "uninitialized hook" error; on the way it runs
`defaults` and calls the hooks above that index, from the last one down, to wrap
the mutator.  Nothing else happens: no mutator is run, so no hook body and no
executor call, and the hooks below the nil entry are not called at all. -/
theorem save_nil_hook (env : Env) (sc : SessionCreate) (w : World)
    (pre : List Hook) (post : List (Mutator → Mutator))
    (hh : sc.hooks = pre ++ none :: post.map some) :
    sc.Save env w =
      ((none, some .uninitializedHook),
        { sc.defaults env { w with err := none } with
          log := (sc.defaults env { w with err := none }).log ++
            (List.range post.length).reverse.map
              (fun j => Event.hookCall sc.ref (pre.length + 1 + j)) }) := by
  have hlen : (pre ++ none :: post.map some).length = pre.length + 1 + post.length := by
    simp
    omega
  have hne : ¬ (pre.length + 1 + post.length = 0) := by omega
  simp only [SessionCreate.Save, hh, hlen, hne, if_false,
    applyHooks_nil sc.ref pre post post.length (le_refl _)]

/-- C4 amended, at the builder whose slots are nil and a tracing hook. -/
theorem save_nil_hook_witness :
    nilThenHook.hooks = [] ++ none :: [tracingHook 1].map some ∧
      nilThenHook.Save env0 world0 =
        ((none, some .uninitializedHook),
          { nilThenHook.defaults env0 { world0 with err := none } with
            log := (nilThenHook.defaults env0 { world0 with err := none }).log ++
              [.hookCall 0 1] }) :=
  ⟨rfl, save_nil_hook env0 nilThenHook world0 [] [tracingHook 1] rfl⟩

/-! ## Logs and hook classes -/

/-- The `CreateNode` calls of a concatenated log. -/
theorem nodeCalls_append (l1 l2 : List Event) :
    nodeCalls (l1 ++ l2) = nodeCalls l1 ++ nodeCalls l2 := by
  simp [nodeCalls, List.filterMap_append]

/-- The `BatchCreate` calls of a concatenated log. -/
theorem batchCalls_append (l1 l2 : List Event) :
    batchCalls (l1 ++ l2) = batchCalls l1 ++ batchCalls l2 := by
  simp [batchCalls, List.filterMap_append]

/-- The hook loop records hook calls only, no executor call. -/
theorem applyHooks_calls (ref : Nat) (hooks : List Hook) (n : Nat) (base : Mutator) :
    nodeCalls (applyHooks ref hooks n base).2 = [] ∧
      batchCalls (applyHooks ref hooks n base).2 = [] := by
  induction n generalizing base with
  | zero => simp [applyHooks, nodeCalls, batchCalls]
  | succ n ih =>
    simp only [applyHooks]
    split
    · simp [nodeCalls, batchCalls]
    · next h _ =>
      have := ih (h base)
      simp only [nodeCalls, batchCalls, List.filterMap_cons] at this ⊢
      exact this

/-- A hook slice whose entries are all non-nil with property `P` is the image of a
list of hook functions with property `P`. -/
theorem hooks_all_some (P : (Mutator → Mutator) → Prop) (hooks : List Hook)
    (h : ∀ x ∈ hooks, ∃ f, x = some f ∧ P f) :
    ∃ fs : List (Mutator → Mutator), hooks = fs.map some ∧ ∀ f ∈ fs, P f := by
  induction hooks with
  | nil => exact ⟨[], rfl, by simp⟩
  | cons x rest ih =>
    obtain ⟨f, hx, hP⟩ := h x (List.mem_cons_self _ _)
    obtain ⟨fs, hfs, hall⟩ := ih (fun y hy => h y (List.mem_cons_of_mem _ hy))
    refine ⟨f :: fs, by simp [hx, hfs], ?_⟩
    intro g hg
    rcases List.mem_cons.mp hg with rfl | hg
    · exact hP
    · exact hall g hg

/-- Agreement of worlds is reflexive. -/
theorem agrees_refl (w : World) : w.agrees w :=
  ⟨rfl, rfl, rfl, rfl, rfl, rfl, rfl⟩

/-- Agreement of worlds is transitive. -/
theorem agrees_trans (u v w : World) (h1 : u.agrees v) (h2 : v.agrees w) : u.agrees w :=
  ⟨h1.1.trans h2.1, h1.2.1.trans h2.2.1, h1.2.2.1.trans h2.2.2.1,
    h1.2.2.2.1.trans h2.2.2.2.1, h1.2.2.2.2.1.trans h2.2.2.2.2.1,
    h1.2.2.2.2.2.1.trans h2.2.2.2.2.2.1, h1.2.2.2.2.2.2.trans h2.2.2.2.2.2.2⟩

/-- A chain of observing hooks around a mutator runs that mutator once on the same
mutation, in a world with the same mutations, builders and `CreateNode` calls,
returns its result, and leaves the mutations, the builders, the variable `err`
and the `CreateNode` calls as the mutator left them. -/
theorem observes_chain (fs : List (Mutator → Mutator)) (hobs : ∀ f ∈ fs, Observes f)
    (base : Mutator) (m : Mutation) (w : World) :
    ∃ w1 : World, w1.agrees w ∧
      (fs.foldr (fun h next => h next) base m w).1 = (base m w1).1 ∧
      (fs.foldr (fun h next => h next) base m w).2.agrees (base m w1).2 := by
  induction fs generalizing w with
  | nil => exact ⟨w, agrees_refl w, rfl, agrees_refl _⟩
  | cons f fs ih =>
    obtain ⟨before, after, hf, hb, ha⟩ := hobs f (List.mem_cons_self _ _)
    obtain ⟨w1, h1, h2, h3⟩ :=
      ih (fun g hg => hobs g (List.mem_cons_of_mem _ hg)) (before m w)
    refine ⟨w1, agrees_trans _ _ _ h1 (hb m w), ?_, ?_⟩
    · simp only [List.foldr_cons, hf]
      exact h2
    · simp only [List.foldr_cons, hf]
      exact agrees_trans _ _ _ (ha m w _) h3

/-- A tracing hook observes. -/
theorem tracingHook_observes (tag : Nat) : Observes (tracingHook tag) := by
  refine ⟨fun _ w => w.emit (.hookRan tag), fun _ _ v => v, ?_, ?_, ?_⟩
  · intro next m w
    rfl
  · intro m w
    refine ⟨rfl, rfl, rfl, rfl, rfl, ?_, ?_⟩
    · simp [World.emit, nodeCalls_append, nodeCalls]
    · simp [World.emit, batchCalls_append, batchCalls]
  · intro m w v
    exact agrees_refl v

/-- A hook that observes delegates. -/
theorem observes_delegates (f : Mutator → Mutator) (h : Observes f) : Delegates f := by
  obtain ⟨before, after, hf, hb, ha⟩ := h
  refine ⟨fun m w => (m, before m w), fun m w r => (r.1, after m w r.2), ?_, ?_, ?_, ?_⟩
  · intro next m w
    exact hf next m w
  · intro m w
    exact ⟨(hb m w).2.2.2.1, (hb m w).2.2.2.2.1, (hb m w).2.2.2.2.2.2⟩
  · intro m w r
    exact ⟨(ha m w r.2).2.2.2.1, (ha m w r.2).2.2.2.2.1, (ha m w r.2).2.2.2.2.2.2⟩
  · intro m w e v
    exact ⟨e, rfl⟩

/-- A tracing hook delegates. -/
theorem tracingHook_delegates (tag : Nat) : Delegates (tracingHook tag) := by
  refine ⟨fun m w => (m, w.emit (.hookRan tag)), fun _ _ r => r, ?_, ?_, ?_, ?_⟩
  · intro next m w
    rfl
  · intro m w
    simp [World.emit, batchCalls_append, batchCalls]
  · intro m w r
    exact ⟨rfl, rfl, rfl⟩
  · intro m w e v
    exact ⟨e, rfl⟩

/-- A hook that sets the id and delegates is a delegating hook. -/
theorem setIDHook_delegates (id : schema.ID) : Delegates (setIDHook id) := by
  refine ⟨fun m w =>
      match m with
      | .session p => (m, w.setMut p ((w.muts p).SetID id))
      | .other _ => (m, w),
    fun _ _ r => r, ?_, ?_, ?_, ?_⟩
  · intro next m w
    cases m <;> rfl
  · intro m w
    cases m <;> simp [World.setMut]
  · intro m w r
    exact ⟨rfl, rfl, rfl⟩
  · intro m w e v
    exact ⟨e, rfl⟩

/-! ## Validation and the default id in `SessionCreate.Save` -/

/-- The method `defaults` leaves the world as it is when the mutation holds an id. -/
theorem defaults_of_some (env : Env) (sc : SessionCreate) (w : World) (v : schema.ID)
    (hid : (w.muts (sc.mutation w)).ID = some v) : sc.defaults env w = w := by
  simp [SessionCreate.defaults, hid]

/-- When the mutation holds an id, `createSpec` puts it in the node and in the spec. -/
theorem createSpec_of_some (env : Env) (sc : SessionCreate) (w : World) (d : schema.ID)
    (hid : (w.muts (sc.mutation w)).ID = some d) :
    (sc.createSpec env w).1.ID = d ∧ (sc.createSpec env w).2.ID.Value = .idPtr d := by
  unfold SessionCreate.createSpec
  simp only [hid]
  split <;> simp

/-- The method `defaults` on a mutation without id stores `session.DefaultID()` in it. -/
theorem defaults_of_none (env : Env) (sc : SessionCreate) (w : World)
    (hid : (w.muts (sc.mutation w)).ID = none) :
    sc.defaults env w =
      { w.setMut (sc.mutation w) ((w.muts (sc.mutation w)).SetID (env.session_DefaultID w.ext).1)
        with ext := (env.session_DefaultID w.ext).2 } := by
  simp [SessionCreate.defaults, hid]

/-- After `defaults` on a mutation without id, the mutation holds the default id. -/
theorem defaults_ID (env : Env) (sc : SessionCreate) (w : World)
    (hid : (w.muts (sc.mutation w)).ID = none) :
    ((sc.defaults env w).muts (sc.mutation w)).ID = some (env.session_DefaultID w.ext).1 := by
  rw [defaults_of_none env sc w hid]
  simp [SessionCreate.mutation, World.setMut, SessionMutation.SetID, SessionMutation.ID]

/-- The method `defaults` touches neither the slices of a bulk save, nor the log,
nor the builders. -/
theorem defaults_frame (env : Env) (sc : SessionCreate) (w : World) :
    (sc.defaults env w).nodes = w.nodes ∧ (sc.defaults env w).specs = w.specs ∧
      (sc.defaults env w).log = w.log ∧ (sc.defaults env w).mutationOf = w.mutationOf := by
  unfold SessionCreate.defaults
  split <;> simp [World.setMut]

/-- The method `sqlSave` changes neither the mutations nor the builders and records
exactly its one `CreateNode` call. -/
theorem sqlSave_frame (env : Env) (sc : SessionCreate) (w : World) :
    (sc.sqlSave env w).2.muts = w.muts ∧ (sc.sqlSave env w).2.mutationOf = w.mutationOf ∧
      (sc.sqlSave env w).2.log = w.log ++ [.CreateNode (sc.createSpec env w).2] := by
  unfold SessionCreate.sqlSave
  simp only [World.emit]
  split
  · split <;> simp
  · split
    · simp
    · simp
    · split <;> simp

/-- When the executor leaves the ID value of the spec that `sqlSave` passes to it, a
node returned by `sqlSave` carries the id of the mutation. -/
theorem sqlSave_ok_ID (env : Env) (sc : SessionCreate) (w : World) (d : schema.ID) (node : Session)
    (hid : (w.muts (sc.mutation w)).ID = some d)
    (hexec : (env.CreateNode (sc.createSpec env w).2 w.ext).1.2 =
      (sc.createSpec env w).2.ID.Value)
    (hok : (sc.sqlSave env w).1 = .ok node) : node.ID = d := by
  have hv := (createSpec_of_some env sc w d hid).2
  rw [hv] at hexec
  unfold SessionCreate.sqlSave at hok
  simp only [hexec] at hok
  split at hok
  · split at hok <;> simp at hok
  · simp at hok
    rw [← hok]

/-- Assigning to a builder the mutation it already points to changes nothing. -/
theorem setMutationOf_self (w : World) (b : SessionCreate) :
    w.setMutationOf b.ref (b.mutation w) = w := by
  cases w
  simp only [World.setMutationOf, SessionCreate.mutation, World.mk.injEq, true_and, and_true]
  funext c
  split
  · next h => rw [h]
  · rfl

/-- The method `check` reads only the mutations and the builders. -/
theorem check_congr (env : Env) (c : SessionCreate) (w v : World)
    (h1 : w.muts = v.muts) (h2 : w.mutationOf = v.mutationOf) :
    c.check env w = c.check env v := by
  simp only [SessionCreate.check, SessionCreate.mutation, h1, h2]

/-- The method `createSpec` reads only the mutations and the builders. -/
theorem createSpec_congr (env : Env) (c : SessionCreate) (w v : World)
    (h1 : w.muts = v.muts) (h2 : w.mutationOf = v.mutationOf) :
    c.createSpec env w = c.createSpec env v := by
  simp only [SessionCreate.createSpec, SessionCreate.mutation, h1, h2]

/-- The hook branch of `SessionCreate.Save` under observing hooks: the result is that
of the innermost mutator, run once on the mutation of the builder in a world with
the mutations of the world after `defaults`. -/
theorem save_hooked (env : Env) (sc : SessionCreate) (w : World)
    (fs : List (Mutator → Mutator)) (hne : fs ≠ []) (hh : sc.hooks = fs.map some)
    (hobs : ∀ f ∈ fs, Observes f) :
    ∃ w1 : World, w1.muts = (sc.defaults env { w with err := none }).muts ∧
      w1.mutationOf = w.mutationOf ∧ nodeCalls w1.log = nodeCalls w.log ∧
      (sc.Save env w).1 =
        (match (sc.mutateFunc env (.session (sc.mutation w)) w1).1 with
          | .error e => (none, some e)
          | .ok (.other _) => (none, some .unexpectedNodeType)
          | .ok (.node nv) =>
            (some nv, (sc.mutateFunc env (.session (sc.mutation w)) w1).2.err)) ∧
      (sc.Save env w).2.muts = (sc.mutateFunc env (.session (sc.mutation w)) w1).2.muts ∧
      nodeCalls (sc.Save env w).2.log =
        nodeCalls (sc.mutateFunc env (.session (sc.mutation w)) w1).2.log := by
  have hlen : ¬ (fs.length = 0) := by
    intro h0
    exact hne (List.length_eq_zero.mp h0)
  have key := applyHooks_map_some sc.ref fs fs.length (le_refl _) (sc.mutateFunc env)
  rw [List.take_length] at key
  have hfr := defaults_frame env sc { w with err := none }
  generalize hwd : sc.defaults env { w with err := none } = wd at hfr
  have hS : sc.Save env w =
      sc.runMutator (fs.foldr (fun h next => h next) (sc.mutateFunc env))
        { wd with log := wd.log ++ (List.range fs.length).reverse.map (Event.hookCall sc.ref) } := by
    simp only [SessionCreate.Save, hh, List.length_map, hlen, if_false, key, hwd]
  generalize hw0 : ({ wd with
      log := wd.log ++ (List.range fs.length).reverse.map (Event.hookCall sc.ref) } : World) = w0
    at hS
  have hm0 : w0.muts = wd.muts := by rw [← hw0]
  have hmo0 : w0.mutationOf = w.mutationOf := by
    rw [← hw0]
    exact hfr.2.2.2
  have hl0 : nodeCalls w0.log = nodeCalls w.log := by
    have hc := (applyHooks_calls sc.ref (fs.map some) fs.length (sc.mutateFunc env)).1
    rw [key] at hc
    rw [← hw0]
    simp only [nodeCalls_append, hc, List.append_nil, hfr.2.2.1]
  have hp : sc.mutation w0 = sc.mutation w := by
    simp only [SessionCreate.mutation, hmo0]
  obtain ⟨w1, ⟨c1, c2, _, _, _, c3, _⟩, c4, ⟨c5, _, c7, _, _, c8, _⟩⟩ :=
    observes_chain fs hobs (sc.mutateFunc env) (.session (sc.mutation w)) w0
  refine ⟨w1, c1.trans hm0, c2.trans hmo0, c3.trans hl0, ?_, ?_, ?_⟩
  all_goals rw [hS]
  all_goals simp only [SessionCreate.runMutator, hp]
  all_goals
    generalize fs.foldr (fun h next => h next) (sc.mutateFunc env)
      (.session (sc.mutation w)) w0 = r at c4 c5 c7 c8
  all_goals
    generalize sc.mutateFunc env (.session (sc.mutation w)) w1 = b at c4 c5 c7 c8
  all_goals rcases r with ⟨res, v⟩
  all_goals simp only at c4 c5 c7 c8
  all_goals subst c4
  · rcases hb : b.1 with e | val
    · simp
    · cases val <;> simp [c7]
  · rcases hb : b.1 with e | val
    · simp [c5]
    · cases val <;> simp [c5]
  · rcases hb : b.1 with e | val
    · simp [c8]
    · cases val <;> simp [c8]

/-- When the check fails after `defaults`, `Save` with no hooks or with observing hooks
returns the error of the check and makes no `CreateNode` call. -/
theorem save_check_fails (env : Env) (sc : SessionCreate) (w : World) (E : Err)
    (hobs : ∀ x ∈ sc.hooks, ∃ f, x = some f ∧ Observes f)
    (hchk : sc.check env (sc.defaults env { w with err := none }) = some E) :
    (sc.Save env w).1 = (none, some E) ∧
      nodeCalls (sc.Save env w).2.log = nodeCalls w.log := by
  have hfr := defaults_frame env sc { w with err := none }
  by_cases hh : sc.hooks = []
  · have hS : sc.Save env w =
        ((none, some E), { sc.defaults env { w with err := none } with err := some E }) := by
      simp only [SessionCreate.Save, hh, List.length_nil, if_true, hchk]
    rw [hS]
    exact ⟨rfl, by rw [hfr.2.2.1]⟩
  · obtain ⟨fs, hfs, hall⟩ := hooks_all_some Observes sc.hooks hobs
    have hne : fs ≠ [] := by
      intro h0
      apply hh
      rw [hfs, h0]
      rfl
    obtain ⟨w1, c1, c2, c3, c4, _, c6⟩ := save_hooked env sc w fs hne hfs hall
    have hc1 : sc.check env w1 = some E := by
      rw [check_congr env sc w1 _ c1 (c2.trans hfr.2.2.2.symm)]
      exact hchk
    have hb : sc.mutateFunc env (.session (sc.mutation w)) w1 =
        (.error E, { w1 with err := some E }) := by
      simp only [SessionCreate.mutateFunc, hc1]
    rw [hb] at c4 c6
    exact ⟨c4, c6.trans c3⟩

/-- When the check passes after `defaults`, `Save` with no hooks or with observing
hooks returns what `sqlSave` returns, run in a world with the mutations of the
world after `defaults`. -/
theorem save_check_passes (env : Env) (sc : SessionCreate) (w : World)
    (hobs : ∀ x ∈ sc.hooks, ∃ f, x = some f ∧ Observes f)
    (hchk : sc.check env (sc.defaults env { w with err := none }) = none) :
    ∃ w2 : World, w2.muts = (sc.defaults env { w with err := none }).muts ∧
      w2.mutationOf = w.mutationOf ∧ nodeCalls w2.log = nodeCalls w.log ∧
      (sc.Save env w).1 =
        (match (sc.sqlSave env w2).1 with
          | .error e => (none, some e)
          | .ok node => (some node, none)) ∧
      (∀ node, (sc.sqlSave env w2).1 = .ok node →
        ((sc.Save env w).2.muts (sc.mutation w)).ID = some node.ID ∨
          (sc.Save env w).2.muts = (sc.defaults env { w with err := none }).muts) := by
  have hfr := defaults_frame env sc { w with err := none }
  by_cases hh : sc.hooks = []
  · refine ⟨sc.defaults env { w with err := none }, rfl, hfr.2.2.2, by rw [hfr.2.2.1], ?_, ?_⟩
    · simp only [SessionCreate.Save, hh, List.length_nil, if_true, hchk]
      rcases sc.sqlSave env (sc.defaults env { w with err := none }) with ⟨r, w1⟩
      cases r <;> rfl
    · intro node _
      right
      have hm := (sqlSave_frame env sc (sc.defaults env { w with err := none })).1
      simp only [SessionCreate.Save, hh, List.length_nil, if_true, hchk]
      generalize sc.sqlSave env (sc.defaults env { w with err := none }) = x at hm
      rcases x with ⟨r, w1⟩
      cases r <;> exact hm
  · obtain ⟨fs, hfs, hall⟩ := hooks_all_some Observes sc.hooks hobs
    have hne : fs ≠ [] := by
      intro h0
      apply hh
      rw [hfs, h0]
      rfl
    obtain ⟨w1, c1, c2, c3, c4, c5, _⟩ := save_hooked env sc w fs hne hfs hall
    have hc1 : sc.check env w1 = none := by
      rw [check_congr env sc w1 _ c1 (c2.trans hfr.2.2.2.symm)]
      exact hchk
    have hself : ({ w1 with err := none } : World).setMutationOf sc.ref (sc.mutation w) =
        { w1 with err := none } := by
      have hp : sc.mutation w = sc.mutation ({ w1 with err := none } : World) := by
        simp only [SessionCreate.mutation, c2]
      rw [hp]
      exact setMutationOf_self _ sc
    refine ⟨{ w1 with err := none }, c1, c2, c3, ?_, ?_⟩
    · rw [c4]
      simp only [SessionCreate.mutateFunc, hc1, hself]
      rcases sc.sqlSave env { w1 with err := none } with ⟨r, w3⟩
      cases r <;> rfl
    · intro node hok
      left
      rw [c5]
      simp only [SessionCreate.mutateFunc, hc1, hself]
      rcases hsq : sc.sqlSave env { w1 with err := none } with ⟨r, w3⟩
      rw [hsq] at hok
      simp only at hok
      subst hok
      simp [World.setMut, SessionMutation.ID]

/-- The method `defaults` reads only the mutations, the builders and the generator state. -/
theorem defaults_congr (env : Env) (c : SessionCreate) (w v : World)
    (h1 : w.muts = v.muts) (h2 : w.mutationOf = v.mutationOf) (h3 : w.ext = v.ext) :
    (c.defaults env w).muts = (c.defaults env v).muts ∧
      (c.defaults env w).mutationOf = (c.defaults env v).mutationOf ∧
      (c.defaults env w).ext = (c.defaults env v).ext := by
  simp only [SessionCreate.defaults, SessionCreate.mutation, h1, h2, h3]
  split <;> simp [World.setMut, h1, h2, h3]

/-- An id is never empty: it has 64 bytes. -/
theorem schemaID_ne_nil (id : schema.ID) : id.val ≠ [] := by
  intro h
  have := id.property
  rw [h] at this
  simp at this

/-- C3, amended.  Let the mutation of the builder hold an explicitly set id that the
ID validator rejects.  With no hooks registered, `Save` returns the
`ValidationError` for field "id" and changes nothing but its own variable `err`.
With hooks that are non-nil and observe, `Save` returns the same error and makes
no `sqlgraph.CreateNode` call.  Whatever the hooks, the check sits in the
innermost mutator: run in such a world on a `*SessionMutation` it returns the
same error, and run on a mutation of another type it returns the "unexpected
mutation type" error, in both cases without calling the executor. -/
theorem save_rejected_id (env : Env) (sc : SessionCreate) (w : World) (v : schema.ID) (e : Err)
    (hid : (w.muts (sc.mutation w)).ID = some v) (hbad : env.session_IDValidator v = some e) :
    (sc.hooks = [] →
        sc.Save env w =
          ((none, some (.ValidationError "id" (.validatorFailed "Session.id" e))),
            { w with err := some (.ValidationError "id" (.validatorFailed "Session.id" e)) })) ∧
      ((∀ x ∈ sc.hooks, ∃ f, x = some f ∧ Observes f) →
        (sc.Save env w).1 =
            (none, some (.ValidationError "id" (.validatorFailed "Session.id" e))) ∧
          nodeCalls (sc.Save env w).2.log = nodeCalls w.log) ∧
      (∀ p, sc.mutateFunc env (.session p) w =
          (.error (.ValidationError "id" (.validatorFailed "Session.id" e)),
            { w with err := some (.ValidationError "id" (.validatorFailed "Session.id" e)) })) ∧
      (∀ k, sc.mutateFunc env (.other k) w = (.error .unexpectedMutationType, w)) := by
  have hid1 : (({ w with err := none } : World).muts
      (sc.mutation { w with err := none })).ID = some v := hid
  have hchk1 : sc.check env { w with err := none } =
      some (.ValidationError "id" (.validatorFailed "Session.id" e)) := by
    simp only [SessionCreate.check, hid1, hbad]
  refine ⟨?_, ?_, ?_, ?_⟩
  · intro hh
    simp only [SessionCreate.Save, hh, List.length_nil, if_true,
      defaults_of_some env sc _ v hid1, hchk1]
  · intro hobs
    apply save_check_fails env sc w _ hobs
    rw [defaults_of_some env sc _ v hid1]
    exact hchk1
  · intro p
    have hchk : sc.check env w =
        some (.ValidationError "id" (.validatorFailed "Session.id" e)) := by
      simp only [SessionCreate.check, hid, hbad]
    simp only [SessionCreate.mutateFunc, hchk]
  · intro k
    rfl

/-- The innermost mutator of `SessionCreate.Save`, run on the mutation of the builder
while it holds an id, with an executor that leaves the ID value of the spec,
returns only a node that carries this id, and the id passed the validator. -/
theorem mutateFunc_ok_ID (env : Env) (sc : SessionCreate) (u : World) (id : schema.ID)
    (node : Session) (hu : (u.muts (sc.mutation u)).ID = some id)
    (hex : (env.CreateNode (sc.createSpec env u).2 u.ext).1.2 =
      (sc.createSpec env u).2.ID.Value)
    (hok : (sc.mutateFunc env (.session (sc.mutation u)) u).1 = .ok (.node node)) :
    node.ID = id ∧ env.session_IDValidator id = none := by
  have hw1 : ({ u with err := none } : World).setMutationOf sc.ref (sc.mutation u) =
      { u with err := none } := setMutationOf_self { u with err := none } sc
  cases hchk : sc.check env u with
  | some e =>
    simp only [SessionCreate.mutateFunc, hchk] at hok
    cases hok
  | none =>
    simp only [SessionCreate.mutateFunc, hchk, hw1] at hok
    have hval : env.session_IDValidator id = none := by
      simp only [SessionCreate.check, hu] at hchk
      cases h : env.session_IDValidator id with
      | none => rfl
      | some e => rw [h] at hchk; cases hchk
    rcases hsq : sc.sqlSave env { u with err := none } with ⟨r, w2⟩
    rw [hsq] at hok
    cases r with
    | error e => cases hok
    | ok n =>
      simp only [Except.ok.injEq, Value.node.injEq] at hok
      subst hok
      exact ⟨sqlSave_ok_ID env sc { u with err := none } id n hu hex (by rw [hsq]), hval⟩

/-- C10, amended.  For a builder on which no id is set: `defaults` stores
`session.DefaultID()` in the mutation (and leaves a mutation that holds an id as
it is).  When the hooks (if any) are non-nil and observe: if the validator
rejects that id, `Save` fails with the validation error without any `CreateNode`
call; and if `Save` succeeds with an executor that leaves the ID value of the
spec that `Save` passes to it, the returned entity carries that id, the id
passes the ID validator and is non-empty, and the mutation holds it.  Whatever
the hooks, the innermost mutator, run on the mutation of the builder while it
holds an id and with an executor that leaves the ID value of the spec passed,
returns only an entity that carries this id, which passed the ID validator and
is non-empty. -/
theorem save_default_id (env : Env) (sc : SessionCreate) (w : World)
    (hid : (w.muts (sc.mutation w)).ID = none) :
    ((sc.defaults env w).muts (sc.mutation w)).ID = some (env.session_DefaultID w.ext).1 ∧
      (∀ (v : World) (id : schema.ID), (v.muts (sc.mutation v)).ID = some id →
        sc.defaults env v = v) ∧
      ((∀ x ∈ sc.hooks, ∃ f, x = some f ∧ Observes f) →
        (∀ e, env.session_IDValidator (env.session_DefaultID w.ext).1 = some e →
          (sc.Save env w).1 =
              (none, some (.ValidationError "id" (.validatorFailed "Session.id" e))) ∧
            nodeCalls (sc.Save env w).2.log = nodeCalls w.log) ∧
        ((∀ n, (env.CreateNode (sc.createSpec env (sc.defaults env w)).2 n).1.2 =
            (sc.createSpec env (sc.defaults env w)).2.ID.Value) →
          ∀ node, (sc.Save env w).1 = (some node, none) →
            node.ID = (env.session_DefaultID w.ext).1 ∧
              env.session_IDValidator node.ID = none ∧
              node.ID.val ≠ [] ∧
              ((sc.Save env w).2.muts (sc.mutation w)).ID = some node.ID)) ∧
      (∀ (u : World) (id : schema.ID) (node : Session),
        (u.muts (sc.mutation u)).ID = some id →
        (env.CreateNode (sc.createSpec env u).2 u.ext).1.2 =
          (sc.createSpec env u).2.ID.Value →
        (sc.mutateFunc env (.session (sc.mutation u)) u).1 = .ok (.node node) →
        node.ID = id ∧ env.session_IDValidator id = none ∧ node.ID.val ≠ []) := by
  have hid1 : (({ w with err := none } : World).muts
      (sc.mutation { w with err := none })).ID = none := hid
  have hd : ((sc.defaults env { w with err := none }).muts (sc.mutation w)).ID =
      some (env.session_DefaultID w.ext).1 := defaults_ID env sc _ hid1
  have hfr := defaults_frame env sc { w with err := none }
  have hcg := defaults_congr env sc { w with err := none } w rfl rfl rfl
  have hchk : sc.check env (sc.defaults env { w with err := none }) =
      (match env.session_IDValidator (env.session_DefaultID w.ext).1 with
        | some err => some (.ValidationError "id" (.validatorFailed "Session.id" err))
        | none => none) := by
    have hp : sc.mutation (sc.defaults env { w with err := none }) = sc.mutation w := by
      simp only [SessionCreate.mutation, hfr.2.2.2]
    simp only [SessionCreate.check, hp, hd]
  refine ⟨defaults_ID env sc w hid, ?_, ?_, ?_⟩
  · intro v id hv
    exact defaults_of_some env sc v id hv
  · intro hobs
    refine ⟨?_, ?_⟩
    · intro e he
      apply save_check_fails env sc w _ hobs
      rw [hchk, he]
    · intro hexec node hsave
      cases hval : env.session_IDValidator (env.session_DefaultID w.ext).1 with
      | some err =>
        have := (save_check_fails env sc w _ hobs (by rw [hchk, hval])).1
        rw [this] at hsave
        simp at hsave
      | none =>
        obtain ⟨w2, c1, c2, _, c4, c5⟩ :=
          save_check_passes env sc w hobs (by rw [hchk, hval])
        have hp2 : sc.mutation w2 = sc.mutation w := by
          simp only [SessionCreate.mutation, c2]
        have hid2 : (w2.muts (sc.mutation w2)).ID = some (env.session_DefaultID w.ext).1 := by
          rw [hp2, c1]
          exact hd
        have hcs : sc.createSpec env w2 = sc.createSpec env (sc.defaults env w) :=
          createSpec_congr env sc w2 _ (c1.trans hcg.1)
            (c2.trans (defaults_frame env sc w).2.2.2.symm)
        have hex2 : (env.CreateNode (sc.createSpec env w2).2 w2.ext).1.2 =
            (sc.createSpec env w2).2.ID.Value := by
          rw [hcs]
          exact hexec w2.ext
        rw [c4] at hsave
        rcases hsq : (sc.sqlSave env w2).1 with err | n
        · rw [hsq] at hsave
          simp at hsave
        · rw [hsq] at hsave
          simp only [Prod.mk.injEq, Option.some.injEq, and_true] at hsave
          subst hsave
          have hn : n.ID = (env.session_DefaultID w.ext).1 :=
            sqlSave_ok_ID env sc w2 _ n hid2 hex2 hsq
          refine ⟨hn, by rw [hn]; exact hval, schemaID_ne_nil _, ?_⟩
          rcases c5 n hsq with h | h
          · exact h
          · rw [h, hn]
            exact hd
  · intro u id node hu hex hok
    obtain ⟨h1, h2⟩ := mutateFunc_ok_ID env sc u id node hu hex hok
    exact ⟨h1, h2, schemaID_ne_nil _⟩

/-- The hook of the traced builder observes. -/
theorem tracedBuilder_observes : ∀ x ∈ tracedBuilder.hooks, ∃ f, x = some f ∧ Observes f := by
  intro x hx
  simp only [tracedBuilder, builder0, List.mem_singleton] at hx
  exact ⟨tracingHook 0, hx, tracingHook_observes 0⟩

/-- C3 amended, at a builder with a tracing hook whose mutation holds the rejected
id `idOf 255`: `Save` returns the validation error and makes no `CreateNode` call. -/
theorem save_rejected_id_witness :
    (worldBadID.muts (tracedBuilder.mutation worldBadID)).ID = some (idOf 255) ∧
      env0.session_IDValidator (idOf 255) = some (.external 1) ∧
      (tracedBuilder.Save env0 worldBadID).1 = (none, some (.ValidationError "id" (.validatorFailed "Session.id" (.external 1)))) ∧
      nodeCalls (tracedBuilder.Save env0 worldBadID).2.log = nodeCalls worldBadID.log :=
  ⟨rfl, rfl,
    (save_rejected_id env0 tracedBuilder worldBadID (idOf 255) (.external 1) rfl rfl).2.1
      tracedBuilder_observes⟩

/-- C3 as stated fails.  The mutation holds the id `idOf 255`, which the validator
rejects.  With a hook that sets another id before delegating, `Save` succeeds and
calls the executor; with a hook that does not delegate, `Save` returns the node of
the hook and no error. -/
theorem save_rejected_id_counterexample :
    (worldBadID.muts ((builder0 0 [some (setIDHook (idOf 7))] []).mutation worldBadID)).ID =
        some (idOf 255) ∧
      env0.session_IDValidator (idOf 255) = some (.external 1) ∧
      ((builder0 0 [some (setIDHook (idOf 7))] []).Save env0 worldBadID).1 =
        (some { ID := idOf 7, device_sessions := none }, none) ∧
      ((builder0 0 [some (setIDHook (idOf 7))] []).Save env0 worldBadID).2.log =
        [.hookCall 0 0, .CreateNode (spec0 (idOf 7) [])] ∧
      ((builder0 0 [some (replaceHook { ID := idOf 9, device_sessions := none })] []).Save
          env0 worldBadID).1 = (some { ID := idOf 9, device_sessions := none }, none) := by
  refine ⟨rfl, rfl, rfl, rfl, rfl⟩

/-- C10 amended, at a fresh builder with a tracing hook: `Save` succeeds and the
entity carries the default id `idOf 1`. -/
theorem save_default_id_witness :
    (world0.muts (tracedBuilder.mutation world0)).ID = none ∧
      (tracedBuilder.Save env0 world0).1 =
        (some { ID := idOf 1, device_sessions := none }, none) ∧
      idOf 1 = (env0.session_DefaultID world0.ext).1 ∧
      env0.session_IDValidator (idOf 1) = none ∧
      (idOf 1).val ≠ [] ∧
      ((tracedBuilder.Save env0 world0).2.muts (tracedBuilder.mutation world0)).ID =
        some (idOf 1) :=
  ⟨rfl, rfl,
    ((save_default_id env0 tracedBuilder world0 rfl).2.2.1 tracedBuilder_observes).2
      (fun _ => rfl) { ID := idOf 1, device_sessions := none } rfl⟩

/-- C10 as stated fails.  On a builder with no id set and a hook that returns a
node of its own without delegating, `Save` succeeds with an entity that carries
the id of the hook, `idOf 255`, which the validator rejects, and not the default
id `idOf 1` that `defaults` stored in the mutation.  With a hook that sets the id
`idOf 7` before delegating, the entity carries `idOf 7`.  Without hooks, on a
builder with a conflict option and an executor that writes the id of the updated
row back into the spec, the entity carries that id, `idOf 7`, and not the
default id. -/
theorem save_default_id_counterexample :
    (world0.muts ((builder0 0 [some (replaceHook { ID := idOf 255, device_sessions := none })]
        []).mutation world0)).ID = none ∧
      ((builder0 0 [some (replaceHook { ID := idOf 255, device_sessions := none })] []).Save
          env0 world0).1 = (some { ID := idOf 255, device_sessions := none }, none) ∧
      (((builder0 0 [some (replaceHook { ID := idOf 255, device_sessions := none })] []).Save
          env0 world0).2.muts 0).ID = some (idOf 1) ∧
      (env0.session_DefaultID world0.ext).1 = idOf 1 ∧
      idOf 255 ≠ idOf 1 ∧
      env0.session_IDValidator (idOf 255) = some (.external 1) ∧
      ((builder0 0 [some (setIDHook (idOf 7))] []).Save env0 world0).1 =
        (some { ID := idOf 7, device_sessions := none }, none) ∧
      ((builder0 0 [] [.ResolveWithNewValues]).Save envWriteBack world0).1 =
        (some { ID := idOf 7, device_sessions := none }, none) ∧
      (envWriteBack.session_DefaultID world0.ext).1 = idOf 1 ∧
      idOf 7 ≠ idOf 1 := by
  refine ⟨rfl, rfl, rfl, rfl, by decide, rfl, rfl, rfl, rfl, by decide⟩

/-! ## `SessionCreateBulk.Save` -/

/-- A delegating hook keeps the invariant of the chain. -/
theorem chainInv_hook (env : Env) (scb : SessionCreateBulk) (i : Nat) (M : Mutator)
    (f : Mutator → Mutator) (hM : SessionCreateBulk.chainInv env scb i M) (hf : Delegates f) :
    SessionCreateBulk.chainInv env scb i (f M) := by
  obtain ⟨before, after, hfeq, hb, ha, he⟩ := hf
  intro m w hn hs
  obtain ⟨b1, b2, b3⟩ := hb m w
  have hn1 : (before m w).2.nodes.length = scb.builders.length := by rw [b1, hn]
  have hs1 : (before m w).2.specs.length = scb.builders.length := by rw [b2, hs]
  obtain ⟨q1, q2, q3, q4, q5⟩ := hM (before m w).1 (before m w).2 hn1 hs1
  rw [hfeq]
  generalize M (before m w).1 (before m w).2 = r at q1 q2 q3 q4 q5
  obtain ⟨a1, a2, a3⟩ := ha m w r
  have hee := he m w
  refine ⟨?_, ?_, ?_, ?_, ?_⟩
  · rw [a1, q1, b1]
  · rw [a2, q2, b2]
  · intro j hj
    rw [a1, a2, (q3 j hj).1, (q3 j hj).2, b1, b2]
    exact ⟨rfl, rfl⟩
  · intro v hv j hj1 hj2
    rw [a1]
    rcases r with ⟨res, x⟩
    cases res with
    | error e =>
      obtain ⟨e1, h1⟩ := hee e x
      rw [h1] at hv
      cases hv
    | ok val => exact q4 val rfl j hj1 hj2
  · rw [a3]
    rcases q5 with ⟨⟨e, h1⟩, h2⟩ | ⟨spec, h1, h2⟩
    · left
      refine ⟨?_, by rw [h2, b3]⟩
      rcases r with ⟨res, x⟩
      simp only at h1
      subst h1
      exact hee e x
    · right
      refine ⟨spec, by rw [h1, b3], ?_⟩
      rw [← b2]
      exact h2

/-- A composition of delegating hooks keeps the invariant of the chain. -/
theorem chainInv_foldr (env : Env) (scb : SessionCreateBulk) (i : Nat) (base : Mutator)
    (fs : List (Mutator → Mutator)) (hbase : SessionCreateBulk.chainInv env scb i base)
    (hfs : ∀ f ∈ fs, Delegates f) :
    SessionCreateBulk.chainInv env scb i (fs.foldr (fun h next => h next) base) := by
  induction fs with
  | nil => exact hbase
  | cons f fs ih =>
    simp only [List.foldr_cons]
    exact chainInv_hook env scb i _ f (ih (fun g hg => hfs g (List.mem_cons_of_mem _ hg)))
      (hfs f (List.mem_cons_self _ _))

/-- The closure of the builder at index `i` has the invariant of the chain at `i`
when what it triggers has the invariant at `i + 1`. -/
theorem chainInv_base (env : Env) (scb : SessionCreateBulk) (i : Nat) (b : SessionCreate)
    (tail : List (Option Mutator)) (hi : i < scb.builders.length)
    (hb : scb.builders[i]? = some b)
    (hQ : SessionCreateBulk.chainInv env scb (i + 1)
      (SessionCreateBulk.nextMutator env scb i tail)) :
    SessionCreateBulk.chainInv env scb i (SessionCreateBulk.mutateFunc env scb i b tail) := by
  intro m w hn hs
  cases m with
  | other k =>
    have hE : SessionCreateBulk.mutateFunc env scb i b tail (.other k) w =
        (.error .unexpectedMutationType, w) := rfl
    rw [hE]
    exact ⟨rfl, rfl, fun _ _ => ⟨rfl, rfl⟩, fun v hv => (by cases hv),
      Or.inl ⟨⟨_, rfl⟩, rfl⟩⟩
  | session p =>
    cases hchk : b.check env w with
    | some e =>
      have hE : SessionCreateBulk.mutateFunc env scb i b tail (.session p) w =
          (.error e, w) := by
        simp only [SessionCreateBulk.mutateFunc, hchk]
      rw [hE]
      exact ⟨rfl, rfl, fun _ _ => ⟨rfl, rfl⟩, fun v hv => (by cases hv),
        Or.inl ⟨⟨_, rfl⟩, rfl⟩⟩
    | none =>
      simp only [SessionCreateBulk.mutateFunc, hchk]
      generalize hw1 : w.setMutationOf b.ref p = w1
      have hn1 : w1.nodes = w.nodes := by rw [← hw1]; rfl
      have hs1 : w1.specs = w.specs := by rw [← hw1]; rfl
      have hl1 : w1.log = w.log := by rw [← hw1]; rfl
      generalize hw2 : ({ w1 with
          nodes := w1.nodes.set i (some (b.createSpec env w1).1)
          specs := w1.specs.set i (some (b.createSpec env w1).2) } : World) = w2
      have hn2 : w2.nodes = w.nodes.set i (some (b.createSpec env w1).1) := by
        rw [← hw2, hn1]
      have hs2 : w2.specs = w.specs.set i (some (b.createSpec env w1).2) := by
        rw [← hw2, hs1]
      have hl2 : w2.log = w.log := by rw [← hw2, hl1]
      have hnl : w2.nodes.length = scb.builders.length := by rw [hn2, List.length_set, hn]
      have hsl : w2.specs.length = scb.builders.length := by rw [hs2, List.length_set, hs]
      have q := hQ (.other 0) w2 hnl hsl
      simp only [SessionCreateBulk.nextMutator] at q
      generalize SessionCreateBulk.nextOrCreate env scb i tail w2 = r at q
      rcases r with ⟨oe, w3⟩
      have hlowN : ∀ x : List (Option Session), (∀ j, j < i + 1 → x[j]? = w2.nodes[j]?) →
          ∀ j, j < i → x[j]? = w.nodes[j]? := by
        intro x hx j hj
        rw [hx j (by omega), hn2, List.getElem?_set_ne (by omega)]
      have hlowS : ∀ x : List (Option CreateSpec), (∀ j, j < i + 1 → x[j]? = w2.specs[j]?) →
          ∀ j, j < i → x[j]? = w.specs[j]? := by
        intro x hx j hj
        rw [hx j (by omega), hs2, List.getElem?_set_ne (by omega)]
      have hgood : ∀ spec, SessionCreateBulk.goodSpec env scb (i + 1) w2.specs spec →
          SessionCreateBulk.goodSpec env scb i w.specs spec := by
        intro spec ⟨g1, g2, g3, g4⟩
        refine ⟨g1, g2, hlowS spec.Nodes g3, ?_⟩
        intro j c hj hc
        by_cases hji : j = i
        · subst hji
          rw [hb] at hc
          cases hc
          refine ⟨w1, ?_⟩
          rw [g3 j (by omega), hs2, List.getElem?_set_self (by omega)]
        · exact g4 j c (by omega) hc
      cases oe with
      | some e =>
        simp only at q ⊢
        obtain ⟨q1, q2, q3, _, q5⟩ := q
        refine ⟨by rw [q1, hnl, hn], by rw [q2, hsl, hs], ?_, fun v hv => (by cases hv), ?_⟩
        · intro j hj
          exact ⟨hlowN _ (fun k hk => (q3 k hk).1) j hj,
            hlowS _ (fun k hk => (q3 k hk).2) j hj⟩
        · rcases q5 with ⟨_, h2⟩ | ⟨spec, h1, h2⟩
          · exact Or.inl ⟨⟨e, rfl⟩, by rw [h2, hl2]⟩
          · exact Or.inr ⟨spec, by rw [h1, hl2], hgood spec h2⟩
      | none =>
        simp only [World.setMut] at q ⊢
        obtain ⟨q1, q2, q3, q4, q5⟩ := q
        refine ⟨by rw [q1, hnl, hn], by rw [q2, hsl, hs], ?_, ?_, ?_⟩
        · intro j hj
          exact ⟨hlowN _ (fun k hk => (q3 k hk).1) j hj,
            hlowS _ (fun k hk => (q3 k hk).2) j hj⟩
        · intro v _ j hj1 hj2
          by_cases hji : j = i
          · subst hji
            refine ⟨(b.createSpec env w1).1, ?_⟩
            rw [(q3 j (by omega)).1, hn2, List.getElem?_set_self (by omega)]
          · exact q4 _ rfl j (by omega) hj2
        · rcases q5 with ⟨⟨e, h1⟩, _⟩ | ⟨spec, h1, h2⟩
          · cases h1
          · exact Or.inr ⟨spec, by rw [h1, hl2], hgood spec h2⟩

/-- For the last builder, the middle of the closure makes the one `BatchCreate` call
on the slice `specs` and has the invariant of the chain. -/
theorem nextMutator_last (env : Env) (scb : SessionCreateBulk) (i : Nat)
    (tail : List (Option Mutator)) (hi : i < scb.builders.length)
    (hlast : ¬ (i < scb.builders.length - 1)) :
    SessionCreateBulk.chainInv env scb (i + 1) (SessionCreateBulk.nextMutator env scb i tail) := by
  intro m w hn hs
  have hgood : SessionCreateBulk.goodSpec env scb (i + 1) w.specs
      { Nodes := w.specs, OnConflict := scb.conflict } := by
    refine ⟨rfl, hs, fun _ _ => rfl, ?_⟩
    intro j c hj hc
    have : j < scb.builders.length := by
      rcases List.getElem?_eq_some_iff.mp hc with ⟨h, _⟩
      exact h
    omega
  have hcalls : batchCalls (w.log ++ [Event.BatchCreate { Nodes := w.specs, OnConflict := scb.conflict }])
      = batchCalls w.log ++ [{ Nodes := w.specs, OnConflict := scb.conflict }] := by
    rw [batchCalls_append]
    rfl
  simp only [SessionCreateBulk.nextMutator, SessionCreateBulk.nextOrCreate, hlast, if_false,
    World.emit]
  split
  · next e w1 heq =>
    split at heq
    · split at heq
      all_goals
        simp only [Prod.mk.injEq] at heq
        obtain ⟨_, h2⟩ := heq
        subst h2
        exact ⟨rfl, rfl, fun _ _ => ⟨rfl, rfl⟩, fun v hv => (by cases hv),
          Or.inr ⟨_, hcalls, hgood⟩⟩
    · simp at heq
  · next w1 heq =>
    split at heq
    · split at heq <;> simp at heq
    · simp only [Prod.mk.injEq, true_and] at heq
      subst heq
      refine ⟨rfl, rfl, fun _ _ => ⟨rfl, rfl⟩, ?_, Or.inr ⟨_, hcalls, hgood⟩⟩
      intro v _ j hj1 hj2
      omega

/-- For a builder that has a successor, the middle of the closure has the invariant
of the chain when the mutator of the successor has it. -/
theorem nextMutator_cons (env : Env) (scb : SessionCreateBulk) (i : Nat)
    (tail : List (Option Mutator)) (M : Mutator) (b1 : SessionCreate)
    (hlt : i < scb.builders.length - 1) (htail : tail.head? = some (some M))
    (hb1 : scb.builders[i + 1]? = some b1)
    (hM : SessionCreateBulk.chainInv env scb (i + 1) M) :
    SessionCreateBulk.chainInv env scb (i + 1) (SessionCreateBulk.nextMutator env scb i tail) := by
  intro m w hn hs
  obtain ⟨q1, q2, q3, q4, q5⟩ := hM (.session (b1.mutation w)) w hn hs
  simp only [SessionCreateBulk.nextMutator, SessionCreateBulk.nextOrCreate, hlt, if_true,
    htail, hb1]
  generalize M (.session (b1.mutation w)) w = r at q1 q2 q3 q4 q5
  rcases r with ⟨res, w1⟩
  cases res with
  | error e =>
    simp only at q1 q2 q3 q5 ⊢
    refine ⟨q1, q2, q3, fun v hv => (by cases hv), ?_⟩
    rcases q5 with ⟨_, h2⟩ | h
    · exact Or.inl ⟨⟨e, rfl⟩, h2⟩
    · exact Or.inr h
  | ok val =>
    simp only at q1 q2 q3 q4 q5 ⊢
    refine ⟨q1, q2, q3, fun v _ => q4 val rfl, ?_⟩
    rcases q5 with ⟨⟨e, h1⟩, _⟩ | h
    · cases h1
    · exact Or.inr h

/-- The mutator stored for a builder whose hooks are non-nil is the composition of
its hooks around its closure, the first hook outermost. -/
theorem mutators_head (env : Env) (scb : SessionCreateBulk) (i : Nat) (b : SessionCreate)
    (rest : List SessionCreate) (fs : List (Mutator → Mutator)) (hfs : b.hooks = fs.map some) :
    SessionCreateBulk.mutators env scb i (b :: rest) =
      some (fs.foldr (fun h next => h next)
          (SessionCreateBulk.mutateFunc env scb i b
            (SessionCreateBulk.mutators env scb (i + 1) rest))) ::
        SessionCreateBulk.mutators env scb (i + 1) rest := by
  have key := fun base => applyHooks_map_some b.ref fs fs.length (le_refl _) base
  simp only [List.take_length] at key
  simp only [SessionCreateBulk.mutators, hfs, List.length_map, key]

/-- In a batch whose hooks are all non-nil and delegate, the mutator stored for every
builder has the invariant of the chain at the index of the builder. -/
theorem bulk_chain (env : Env) (scb : SessionCreateBulk) (rest : List SessionCreate) :
    ∀ (b : SessionCreate) (pre : List SessionCreate), scb.builders = pre ++ b :: rest →
      (∀ c ∈ b :: rest, ∀ x ∈ c.hooks, ∃ f, x = some f ∧ Delegates f) →
      ∃ M : Mutator,
        SessionCreateBulk.mutators env scb pre.length (b :: rest) =
          some M :: SessionCreateBulk.mutators env scb (pre.length + 1) rest ∧
        SessionCreateBulk.chainInv env scb pre.length M := by
  induction rest with
  | nil =>
    intro b pre hb hh
    have hK : scb.builders.length = pre.length + 1 := by rw [hb]; simp
    have hget : scb.builders[pre.length]? = some b := by
      rw [hb, List.getElem?_append_right (le_refl _)]
      simp
    obtain ⟨fs, hfs, hall⟩ := hooks_all_some Delegates b.hooks (hh b (List.mem_cons_self _ _))
    refine ⟨_, mutators_head env scb pre.length b [] fs hfs, ?_⟩
    apply chainInv_foldr env scb pre.length _ fs _ hall
    apply chainInv_base env scb pre.length b _ (by omega) hget
    exact nextMutator_last env scb pre.length _ (by omega) (by omega)
  | cons b1 rest ih =>
    intro b pre hb hh
    have hK : scb.builders.length = pre.length + 1 + (rest.length + 1) := by
      rw [hb]
      simp
      omega
    have hget : scb.builders[pre.length]? = some b := by
      rw [hb, List.getElem?_append_right (le_refl _)]
      simp
    have hget1 : scb.builders[pre.length + 1]? = some b1 := by
      rw [hb, List.getElem?_append_right (by omega)]
      simp
    have hb2 : scb.builders = (pre ++ [b]) ++ b1 :: rest := by
      rw [hb]
      simp
    have hpl : (pre ++ [b]).length = pre.length + 1 := by simp
    obtain ⟨M1, hM1, hinv1⟩ := ih b1 (pre ++ [b]) hb2
      (fun c hc => hh c (List.mem_cons_of_mem _ hc))
    rw [hpl] at hM1 hinv1
    obtain ⟨fs, hfs, hall⟩ := hooks_all_some Delegates b.hooks (hh b (List.mem_cons_self _ _))
    refine ⟨_, mutators_head env scb pre.length b (b1 :: rest) fs hfs, ?_⟩
    apply chainInv_foldr env scb pre.length _ fs _ hall
    apply chainInv_base env scb pre.length b _ (by omega) hget
    exact nextMutator_cons env scb pre.length _ M1 b1 (by omega) (by rw [hM1]; rfl) hget1 hinv1

/-- In a batch whose hooks are all non-nil, the loop of `SessionCreateBulk.Save` does
not panic, keeps the slices `nodes` and `specs` and makes no `BatchCreate` call. -/
theorem prepare_ok (env : Env) (scb : SessionCreateBulk) (bs : List SessionCreate)
    (hh : ∀ c ∈ bs, ∀ x ∈ c.hooks, ∃ f, x = some f ∧ Delegates f) (i : Nat) (w : World) :
    (SessionCreateBulk.prepare env scb i bs w).1 = true ∧
      (SessionCreateBulk.prepare env scb i bs w).2.nodes = w.nodes ∧
      (SessionCreateBulk.prepare env scb i bs w).2.specs = w.specs ∧
      batchCalls (SessionCreateBulk.prepare env scb i bs w).2.log = batchCalls w.log := by
  induction bs generalizing i w with
  | nil => exact ⟨rfl, rfl, rfl, rfl⟩
  | cons b rest ih =>
    obtain ⟨fs, hfs, _⟩ := hooks_all_some Delegates b.hooks (hh b (List.mem_cons_self _ _))
    have key := fun base => applyHooks_map_some b.ref fs fs.length (le_refl _) base
    have hc := fun base => (applyHooks_calls b.ref (fs.map some) fs.length base).2
    have hfr := defaults_frame env b w
    simp only [SessionCreateBulk.prepare, hfs, List.length_map]
    generalize hr : applyHooks b.ref (fs.map some) fs.length
      (SessionCreateBulk.mutateFunc env scb i b
        (SessionCreateBulk.mutators env scb (i + 1) rest)) = r
    have hr1 : r.1 = some ((fs.take fs.length).foldr (fun h next => h next)
        (SessionCreateBulk.mutateFunc env scb i b
          (SessionCreateBulk.mutators env scb (i + 1) rest))) := by
      rw [← hr, key]
    have hr2 : batchCalls r.2 = [] := by
      rw [← hr]
      exact hc _
    rw [hr1]
    simp only
    obtain ⟨i1, i2, i3, i4⟩ := ih (fun c hc => hh c (List.mem_cons_of_mem _ hc)) (i + 1)
      { b.defaults env w with log := (b.defaults env w).log ++ r.2 }
    refine ⟨i1, i2.trans hfr.1, i3.trans hfr.2.1, i4.trans ?_⟩
    simp only [batchCalls_append, hr2, List.append_nil, hfr.2.2.1]

/-- In a non-empty batch whose hooks are all non-nil and delegate, `Save` runs the
mutator of the first builder, which has the invariant of the chain, once. -/
theorem bulk_save_shape (env : Env) (scb : SessionCreateBulk) (w : World)
    (b : SessionCreate) (rest : List SessionCreate) (hbs : scb.builders = b :: rest)
    (hd : ∀ c ∈ scb.builders, ∀ x ∈ c.hooks, ∃ f, x = some f ∧ Delegates f) :
    ∃ (M : Mutator) (w1 : World), SessionCreateBulk.chainInv env scb 0 M ∧
      w1.nodes.length = scb.builders.length ∧ w1.specs.length = scb.builders.length ∧
      batchCalls w1.log = batchCalls w.log ∧
      scb.Save env w =
        (match M (.session (b.mutation w1)) w1 with
          | (.error e, w2) => (.ret (none, some e), w2)
          | (.ok _, w2) => (.ret (some w2.nodes, none), w2)) := by
  have hall : ∀ c ∈ b :: rest, ∀ x ∈ c.hooks, ∃ f, x = some f ∧ Delegates f := by
    intro c hc
    exact hd c (by rw [hbs]; exact hc)
  obtain ⟨M, hM, hinv⟩ := bulk_chain env scb rest b [] (by simpa using hbs) hall
  simp only [List.length_nil, Nat.zero_add] at hM hinv
  generalize hw0 : ({ w with
      nodes := List.replicate scb.builders.length none
      specs := List.replicate scb.builders.length none } : World) = w0
  have hn0 : w0.nodes.length = scb.builders.length := by rw [← hw0]; simp
  have hs0 : w0.specs.length = scb.builders.length := by rw [← hw0]; simp
  have hl0 : w0.log = w.log := by rw [← hw0]
  obtain ⟨p1, p2, p3, p4⟩ := prepare_ok env scb (b :: rest) hall 0 w0
  rcases hpr : SessionCreateBulk.prepare env scb 0 (b :: rest) w0 with ⟨ok, w1⟩
  rw [hpr] at p1 p2 p3 p4
  simp only at p1 p2 p3 p4
  subst p1
  refine ⟨M, w1, hinv, by rw [p2, hn0], by rw [p3, hs0], by rw [p4, hl0], ?_⟩
  simp only [SessionCreateBulk.Save, hw0]
  rw [hbs, hpr, hM]
  simp

/-- C5, amended.  For a batch of K builders whose hooks are all non-nil and delegate
(each calls the next mutator exactly once and returns an error whenever the next
mutator does), `SessionCreateBulk.Save` returns either an error with the nil
slice, or no error with a slice of length K whose entries all hold a constructed
entity. -/
theorem bulk_save_all_or_nothing (env : Env) (scb : SessionCreateBulk) (w : World)
    (hd : ∀ b ∈ scb.builders, ∀ x ∈ b.hooks, ∃ f, x = some f ∧ Delegates f) :
    (∃ e, (scb.Save env w).1 = .ret (none, some e)) ∨
      (∃ nodes, (scb.Save env w).1 = .ret (some nodes, none) ∧
        nodes.length = scb.builders.length ∧ ∀ x ∈ nodes, ∃ n, x = some n) := by
  cases hbs : scb.builders with
  | nil =>
    right
    refine ⟨[], ?_, rfl, by simp⟩
    simp [SessionCreateBulk.Save, hbs, SessionCreateBulk.prepare, SessionCreateBulk.mutators]
  | cons b rest =>
    obtain ⟨M, w1, hinv, hn1, hs1, _, hS⟩ := bulk_save_shape env scb w b rest hbs hd
    obtain ⟨k1, _, _, k4, _⟩ := hinv (.session (b.mutation w1)) w1 hn1 hs1
    rw [hS]
    generalize M (.session (b.mutation w1)) w1 = r at k1 k4
    rcases r with ⟨res, w2⟩
    cases res with
    | error e => exact Or.inl ⟨e, rfl⟩
    | ok v =>
      right
      simp only at k1 k4 ⊢
      refine ⟨w2.nodes, rfl, ?_, ?_⟩
      · rw [k1, hn1, hbs]
      · intro x hx
        obtain ⟨j, hj, hx⟩ := List.getElem_of_mem hx
        have hjK : j < scb.builders.length := by
          rw [← hn1, ← k1]
          exact hj
        obtain ⟨n, hn⟩ := k4 v rfl j (Nat.zero_le _) hjK
        rw [List.getElem?_eq_getElem hj, hx] at hn
        exact ⟨n, by simpa using hn⟩

/-- The method `check` gives the same result in worlds that agree. -/
theorem agrees_check (env : Env) (c : SessionCreate) (v w : World) (h : v.agrees w) :
    c.check env v = c.check env w :=
  check_congr env c v w h.1 h.2.1

/-- The method `createSpec` gives the same result in worlds that agree. -/
theorem agrees_createSpec (env : Env) (c : SessionCreate) (v w : World) (h : v.agrees w) :
    c.createSpec env v = c.createSpec env w :=
  createSpec_congr env c v w h.1 h.2.1

/-- An observing hook keeps the exact invariant of the chain. -/
theorem exactInv_hook (env : Env) (scb : SessionCreateBulk) (i : Nat)
    (bs : List SessionCreate) (b : SessionCreate) (M : Mutator) (f : Mutator → Mutator)
    (hM : SessionCreateBulk.exactInv env scb i bs b M) (hf : Observes f) :
    SessionCreateBulk.exactInv env scb i bs b (f M) := by
  obtain ⟨before, after, hfeq, hb, ha⟩ := hf
  intro w hs
  have hag := hb (.session (b.mutation w)) w
  generalize hw1 : before (.session (b.mutation w)) w = w1 at hag
  have hp : b.mutation w1 = b.mutation w := by
    simp only [SessionCreate.mutation, hag.2.1]
  have hs1 : w1.specs.length = scb.builders.length := by rw [hag.2.2.2.2.1, hs]
  obtain ⟨q1, q2⟩ := hM w1 hs1
  rw [hp] at q1 q2
  have hmap : bs.map (fun c => some (c.createSpec env w1).2) =
      bs.map (fun c => some (c.createSpec env w).2) := by
    apply List.map_congr_left
    intro c _
    rw [agrees_createSpec env c w1 w hag]
  rw [hfeq, hw1]
  have hafter := ha (.session (b.mutation w)) w (M (.session (b.mutation w)) w1).2
  constructor
  · intro hall
    have h := q1 (fun c hc => by rw [agrees_check env c w1 w hag]; exact hall c hc)
    rw [hmap, hag.2.2.2.2.1, hag.2.2.2.2.2.2] at h
    simp only
    rw [hafter.2.2.2.2.2.2]
    exact h
  · intro hex
    obtain ⟨c, hc, hne⟩ := hex
    obtain ⟨h1, e, h2⟩ := q2 ⟨c, hc, by rw [agrees_check env c w1 w hag]; exact hne⟩
    simp only
    rw [hafter.2.2.2.2.2.2]
    exact ⟨h1.trans hag.2.2.2.2.2.2, e, h2⟩

/-- A composition of observing hooks keeps the exact invariant of the chain. -/
theorem exactInv_foldr (env : Env) (scb : SessionCreateBulk) (i : Nat)
    (bs : List SessionCreate) (b : SessionCreate) (base : Mutator)
    (fs : List (Mutator → Mutator)) (hbase : SessionCreateBulk.exactInv env scb i bs b base)
    (hfs : ∀ f ∈ fs, Observes f) :
    SessionCreateBulk.exactInv env scb i bs b (fs.foldr (fun h next => h next) base) := by
  induction fs with
  | nil => exact hbase
  | cons f fs ih =>
    simp only [List.foldr_cons]
    exact exactInv_hook env scb i bs b _ f (ih (fun g hg => hfs g (List.mem_cons_of_mem _ hg)))
      (hfs f (List.mem_cons_self _ _))

/-- The closure of the builder at index `i` has the exact invariant of the chain
when what it triggers makes the one `BatchCreate` call, on the specs of the
later builders, exactly when their checks pass. -/
theorem exactInv_base (env : Env) (scb : SessionCreateBulk) (i : Nat) (b : SessionCreate)
    (rest : List SessionCreate) (tail : List (Option Mutator))
    (hi : i < scb.builders.length)
    (hQ : ∀ w2 : World, w2.specs.length = scb.builders.length →
      ((∀ c ∈ rest, c.check env w2 = none) →
        batchCalls (SessionCreateBulk.nextOrCreate env scb i tail w2).2.log =
          batchCalls w2.log ++
            [{ Nodes := w2.specs.take (i + 1) ++ rest.map (fun c => some (c.createSpec env w2).2)
               OnConflict := scb.conflict }]) ∧
      ((∃ c ∈ rest, c.check env w2 ≠ none) →
        batchCalls (SessionCreateBulk.nextOrCreate env scb i tail w2).2.log = batchCalls w2.log ∧
          ∃ e, (SessionCreateBulk.nextOrCreate env scb i tail w2).1 = some e)) :
    SessionCreateBulk.exactInv env scb i (b :: rest) b
      (SessionCreateBulk.mutateFunc env scb i b tail) := by
  intro w hs
  simp only [SessionCreateBulk.mutateFunc, setMutationOf_self]
  cases hchk : b.check env w with
  | some e =>
    simp only
    constructor
    · intro hall
      have := hall b (List.mem_cons_self _ _)
      rw [hchk] at this
      cases this
    · intro _
      simp
  | none =>
    simp only
    generalize hw2 : ({ w with
        nodes := w.nodes.set i (some (b.createSpec env w).1)
        specs := w.specs.set i (some (b.createSpec env w).2) } : World) = w2
    have hm : w2.muts = w.muts := by rw [← hw2]
    have hmo : w2.mutationOf = w.mutationOf := by rw [← hw2]
    have hlog : w2.log = w.log := by rw [← hw2]
    have hsp : w2.specs = w.specs.set i (some (b.createSpec env w).2) := by rw [← hw2]
    have hl2 : w2.specs.length = scb.builders.length := by rw [hsp, List.length_set, hs]
    have htake : w2.specs.take (i + 1) = w.specs.take i ++ [some (b.createSpec env w).2] := by
      rw [hsp, List.take_succ, List.getElem?_set_self (by omega), List.set_take,
        List.set_eq_of_length_le (by simp)]
      rfl
    obtain ⟨q1, q2⟩ := hQ w2 hl2
    generalize SessionCreateBulk.nextOrCreate env scb i tail w2 = r at q1 q2
    constructor
    · intro hall
      have hrest : ∀ c ∈ rest, c.check env w2 = none := by
        intro c hc
        rw [check_congr env c w2 w hm hmo]
        exact hall c (List.mem_cons_of_mem _ hc)
      have hl := q1 hrest
      have hmap : rest.map (fun c => some (c.createSpec env w2).2) =
          rest.map (fun c => some (c.createSpec env w).2) := by
        apply List.map_congr_left
        intro c _
        rw [createSpec_congr env c w2 w hm hmo]
      rw [htake, hmap, hlog] at hl
      have hfin : batchCalls r.2.log = batchCalls w.log ++
          [{ Nodes := w.specs.take i ++ (b :: rest).map (fun c => some (c.createSpec env w).2)
             OnConflict := scb.conflict }] := by
        rw [hl]
        simp
      cases hr : r.1 with
      | some e => exact hfin
      | none => exact hfin
    · intro hex
      obtain ⟨c, hc, hne⟩ := hex
      have hc1 : c ∈ rest := by
        rcases List.mem_cons.mp hc with rfl | hc
        · exact absurd hchk hne
        · exact hc
      obtain ⟨l1, e, he⟩ := q2 ⟨c, hc1, by rw [check_congr env c w2 w hm hmo]; exact hne⟩
      rw [he]
      exact ⟨by rw [l1, hlog], e, rfl⟩

/-- In a batch whose hooks are all non-nil and observe, the mutator stored for every
builder has the exact invariant of the chain. -/
theorem bulk_chain_exact (env : Env) (scb : SessionCreateBulk) (rest : List SessionCreate) :
    ∀ (b : SessionCreate) (pre : List SessionCreate), scb.builders = pre ++ b :: rest →
      (∀ c ∈ b :: rest, ∀ x ∈ c.hooks, ∃ f, x = some f ∧ Observes f) →
      ∃ M : Mutator,
        SessionCreateBulk.mutators env scb pre.length (b :: rest) =
          some M :: SessionCreateBulk.mutators env scb (pre.length + 1) rest ∧
        SessionCreateBulk.exactInv env scb pre.length (b :: rest) b M := by
  induction rest with
  | nil =>
    intro b pre hb hh
    have hK : scb.builders.length = pre.length + 1 := by rw [hb]; simp
    have hnot : ¬ (pre.length < scb.builders.length - 1) := by omega
    obtain ⟨fs, hfs, hall⟩ := hooks_all_some Observes b.hooks (hh b (List.mem_cons_self _ _))
    refine ⟨_, mutators_head env scb pre.length b [] fs hfs, ?_⟩
    apply exactInv_foldr env scb pre.length _ b _ fs _ hall
    apply exactInv_base env scb pre.length b [] _ (by omega)
    intro w2 hl2
    simp only [SessionCreateBulk.nextOrCreate, hnot, if_false]
    constructor
    · intro _
      have htk : w2.specs.take (pre.length + 1) = w2.specs := by
        apply List.take_of_length_le
        omega
      have hfin : batchCalls ({ w2.emit (.BatchCreate
            { Nodes := w2.specs, OnConflict := scb.conflict }) with
          ext := (env.BatchCreate { Nodes := w2.specs, OnConflict := scb.conflict } w2.ext).2 }
          : World).log =
          batchCalls w2.log ++
            [{ Nodes := w2.specs.take (pre.length + 1) ++
                  ([] : List SessionCreate).map (fun c => some (c.createSpec env w2).2)
               OnConflict := scb.conflict }] := by
        rw [htk]
        simp only [World.emit, batchCalls_append, List.map_nil, List.append_nil]
        rfl
      split
      · split <;> exact hfin
      · exact hfin
    · intro hex
      obtain ⟨c, hc, _⟩ := hex
      cases hc
  | cons b1 rest ih =>
    intro b pre hb hh
    have hK : scb.builders.length = pre.length + 1 + (rest.length + 1) := by
      rw [hb]
      simp
      omega
    have hlt : pre.length < scb.builders.length - 1 := by omega
    have hget1 : scb.builders[pre.length + 1]? = some b1 := by
      rw [hb, List.getElem?_append_right (by omega)]
      simp
    have hb2 : scb.builders = (pre ++ [b]) ++ b1 :: rest := by
      rw [hb]
      simp
    have hpl : (pre ++ [b]).length = pre.length + 1 := by simp
    obtain ⟨M1, hM1, hinv1⟩ := ih b1 (pre ++ [b]) hb2
      (fun c hc => hh c (List.mem_cons_of_mem _ hc))
    rw [hpl] at hM1 hinv1
    obtain ⟨fs, hfs, hall⟩ := hooks_all_some Observes b.hooks (hh b (List.mem_cons_self _ _))
    refine ⟨_, mutators_head env scb pre.length b (b1 :: rest) fs hfs, ?_⟩
    apply exactInv_foldr env scb pre.length _ b _ fs _ hall
    apply exactInv_base env scb pre.length b (b1 :: rest) _ (by omega)
    intro w2 hl2
    obtain ⟨i1, i2⟩ := hinv1 w2 hl2
    simp only [SessionCreateBulk.nextOrCreate, hlt, if_true, hM1, List.head?_cons, hget1]
    generalize M1 (.session (b1.mutation w2)) w2 = r at i1 i2
    rcases r with ⟨res, w3⟩
    cases res with
    | error e =>
      simp only at i1 i2 ⊢
      exact ⟨i1, fun h => ⟨(i2 h).1, e, rfl⟩⟩
    | ok v =>
      simp only at i1 i2 ⊢
      refine ⟨i1, fun h => ?_⟩
      obtain ⟨_, e, he⟩ := i2 h
      cases he

/-- In a batch whose hooks are all non-nil, the loop of `SessionCreateBulk.Save` does
not panic, leaves the mutations and the builders as the `defaults` of the
builders leave them, keeps the slice `specs` and makes no `BatchCreate` call. -/
theorem prepare_state (env : Env) (scb : SessionCreateBulk) (bs : List SessionCreate)
    (hh : ∀ c ∈ bs, ∀ x ∈ c.hooks, ∃ f, x = some f ∧ Observes f) (i : Nat) (w v : World)
    (h1 : w.muts = v.muts) (h2 : w.mutationOf = v.mutationOf) (h3 : w.ext = v.ext) :
    (SessionCreateBulk.prepare env scb i bs w).1 = true ∧
      (SessionCreateBulk.prepare env scb i bs w).2.muts =
        (bs.foldl (fun x b => b.defaults env x) v).muts ∧
      (SessionCreateBulk.prepare env scb i bs w).2.mutationOf =
        (bs.foldl (fun x b => b.defaults env x) v).mutationOf ∧
      (SessionCreateBulk.prepare env scb i bs w).2.specs = w.specs ∧
      batchCalls (SessionCreateBulk.prepare env scb i bs w).2.log = batchCalls w.log := by
  induction bs generalizing i w v with
  | nil => exact ⟨rfl, h1, h2, rfl, rfl⟩
  | cons b rest ih =>
    obtain ⟨fs, hfs, _⟩ := hooks_all_some Observes b.hooks (hh b (List.mem_cons_self _ _))
    have key := fun base => applyHooks_map_some b.ref fs fs.length (le_refl _) base
    have hc := fun base => (applyHooks_calls b.ref (fs.map some) fs.length base).2
    have hfr := defaults_frame env b w
    obtain ⟨d1, d2, d3⟩ := defaults_congr env b w v h1 h2 h3
    simp only [SessionCreateBulk.prepare, hfs, List.length_map, List.foldl_cons]
    generalize hr : applyHooks b.ref (fs.map some) fs.length
      (SessionCreateBulk.mutateFunc env scb i b
        (SessionCreateBulk.mutators env scb (i + 1) rest)) = r
    have hr1 : r.1 = some ((fs.take fs.length).foldr (fun h next => h next)
        (SessionCreateBulk.mutateFunc env scb i b
          (SessionCreateBulk.mutators env scb (i + 1) rest))) := by
      rw [← hr, key]
    have hr2 : batchCalls r.2 = [] := by
      rw [← hr]
      exact hc _
    rw [hr1]
    simp only
    obtain ⟨i1, i2, i3, i4, i5⟩ := ih (fun c hc => hh c (List.mem_cons_of_mem _ hc)) (i + 1)
      { b.defaults env w with log := (b.defaults env w).log ++ r.2 } (b.defaults env v) d1 d2 d3
    refine ⟨i1, i2, i3, i4.trans hfr.2.1, i5.trans ?_⟩
    simp only [batchCalls_append, hr2, List.append_nil, hfr.2.2.1]

/-- For a non-empty batch whose hooks are all non-nil and observe: when the checks
of all builders pass once the defaults are assigned, `Save` makes exactly one
`BatchCreate` call, on the specs of the builders in order; when one fails, `Save`
makes no call and returns an error. -/
theorem bulk_save_observed_calls (env : Env) (scb : SessionCreateBulk) (w : World)
    (hobs : ∀ b ∈ scb.builders, ∀ x ∈ b.hooks, ∃ f, x = some f ∧ Observes f)
    (hne : scb.builders ≠ []) :
    ((∀ b ∈ scb.builders, b.check env (scb.defaultsAll env w) = none) →
        batchCalls (scb.Save env w).2.log =
          batchCalls w.log ++
            [{ Nodes := scb.builders.map
                 (fun b => some (b.createSpec env (scb.defaultsAll env w)).2)
               OnConflict := scb.conflict }]) ∧
      ((∃ b ∈ scb.builders, b.check env (scb.defaultsAll env w) ≠ none) →
        batchCalls (scb.Save env w).2.log = batchCalls w.log ∧
          ∃ e, (scb.Save env w).1 = .ret (none, some e)) := by
  cases hbs : scb.builders with
  | nil => exact absurd hbs hne
  | cons b rest =>
    have hall : ∀ c ∈ b :: rest, ∀ x ∈ c.hooks, ∃ f, x = some f ∧ Observes f := by
      intro c hc
      exact hobs c (by rw [hbs]; exact hc)
    obtain ⟨M, hM, hinv⟩ := bulk_chain_exact env scb rest b [] (by simpa using hbs) hall
    simp only [List.length_nil, Nat.zero_add] at hM hinv
    generalize hw0 : ({ w with
        nodes := List.replicate scb.builders.length none
        specs := List.replicate scb.builders.length none } : World) = w0
    have hs0 : w0.specs = List.replicate scb.builders.length none := by rw [← hw0]
    have hl0 : w0.log = w.log := by rw [← hw0]
    have hm0 : w0.muts = w.muts := by rw [← hw0]
    have hmo0 : w0.mutationOf = w.mutationOf := by rw [← hw0]
    have hx0 : w0.ext = w.ext := by rw [← hw0]
    obtain ⟨p1, p2, p3, p4, p5⟩ := prepare_state env scb (b :: rest) hall 0 w0 w hm0 hmo0 hx0
    have hda : scb.defaultsAll env w = (b :: rest).foldl (fun v c => c.defaults env v) w := by
      simp only [SessionCreateBulk.defaultsAll, hbs]
    rw [← hda] at p2 p3
    rcases hpr : SessionCreateBulk.prepare env scb 0 (b :: rest) w0 with ⟨ok, w1⟩
    rw [hpr] at p1 p2 p3 p4 p5
    simp only at p1 p2 p3 p4 p5
    subst p1
    have hs1 : w1.specs.length = scb.builders.length := by rw [p4, hs0]; simp
    have hS : scb.Save env w =
        (match M (.session (b.mutation w1)) w1 with
          | (.error e, w2) => (.ret (none, some e), w2)
          | (.ok _, w2) => (.ret (some w2.nodes, none), w2)) := by
      simp only [SessionCreateBulk.Save, hw0]
      rw [hbs, hpr, hM]
      simp
    obtain ⟨k1, k2⟩ := hinv w1 hs1
    have hchk : ∀ c : SessionCreate, c.check env w1 = c.check env (scb.defaultsAll env w) :=
      fun c => check_congr env c w1 _ p2 p3
    have hcs : ∀ c : SessionCreate,
        c.createSpec env w1 = c.createSpec env (scb.defaultsAll env w) :=
      fun c => createSpec_congr env c w1 _ p2 p3
    have htk : w1.specs.take 0 = [] := rfl
    simp only [hchk, hcs, htk, List.nil_append, p5, hl0] at k1 k2
    rw [hS]
    generalize M (.session (b.mutation w1)) w1 = r at k1 k2
    constructor
    · intro hc
      have := k1 hc
      rcases r with ⟨res, w2⟩
      cases res <;> exact this
    · intro hex
      obtain ⟨l, e, he⟩ := k2 hex
      rcases r with ⟨res, w2⟩
      simp only at he l
      subst he
      exact ⟨l, e, rfl⟩

/-- C2, amended.  For a batch whose hooks are all non-nil and delegate (each calls
the next mutator exactly once and returns an error whenever the next mutator
does): with K = 0 builders `Save` makes no executor call and returns an empty
slice; with K >= 1 builders, either `Save` returns an error without any
`sqlgraph.BatchCreate` call, or it makes exactly one `sqlgraph.BatchCreate`
call, whose batch spec has the conflict list of the batch and exactly K create
specs, the i-th built by `createSpec` from the i-th builder.  When the hooks
moreover only observe (in particular when there are none), the one call is made
exactly when the checks of all builders pass once the defaults are assigned,
and the i-th spec is the one `createSpec` builds from the i-th builder in that
state; when the check of some builder fails, `Save` makes no call and returns
an error. -/
theorem bulk_save_batch_calls (env : Env) (scb : SessionCreateBulk) (w : World)
    (hd : ∀ b ∈ scb.builders, ∀ x ∈ b.hooks, ∃ f, x = some f ∧ Delegates f) :
    (scb.builders = [] →
        (scb.Save env w).1 = .ret (some [], none) ∧ (scb.Save env w).2.log = w.log) ∧
      (scb.builders ≠ [] →
        ((∃ e, (scb.Save env w).1 = .ret (none, some e)) ∧
            batchCalls (scb.Save env w).2.log = batchCalls w.log) ∨
          (∃ spec, batchCalls (scb.Save env w).2.log = batchCalls w.log ++ [spec] ∧
            spec.OnConflict = scb.conflict ∧ spec.Nodes.length = scb.builders.length ∧
            ∀ (j : Nat) (c : SessionCreate), scb.builders[j]? = some c →
              ∃ v, spec.Nodes[j]? = some (some (c.createSpec env v).2))) ∧
      ((∀ b ∈ scb.builders, ∀ x ∈ b.hooks, ∃ f, x = some f ∧ Observes f) →
        scb.builders ≠ [] →
        ((∀ b ∈ scb.builders, b.check env (scb.defaultsAll env w) = none) →
          batchCalls (scb.Save env w).2.log =
            batchCalls w.log ++
              [{ Nodes := scb.builders.map
                   (fun b => some (b.createSpec env (scb.defaultsAll env w)).2)
                 OnConflict := scb.conflict }]) ∧
        ((∃ b ∈ scb.builders, b.check env (scb.defaultsAll env w) ≠ none) →
          batchCalls (scb.Save env w).2.log = batchCalls w.log ∧
            ∃ e, (scb.Save env w).1 = .ret (none, some e))) := by
  refine ⟨?_, ?_, ?_⟩
  · intro hbs
    simp [SessionCreateBulk.Save, hbs, SessionCreateBulk.prepare, SessionCreateBulk.mutators]
  · intro hne
    cases hbs : scb.builders with
    | nil => exact absurd hbs hne
    | cons b rest =>
      obtain ⟨M, w1, hinv, hn1, hs1, hc1, hS⟩ := bulk_save_shape env scb w b rest hbs hd
      obtain ⟨_, _, _, _, k5⟩ := hinv (.session (b.mutation w1)) w1 hn1 hs1
      rw [hS]
      generalize M (.session (b.mutation w1)) w1 = r at k5
      rcases r with ⟨res, w2⟩
      rw [← hbs]
      rcases k5 with ⟨⟨e, h1⟩, h2⟩ | ⟨spec, h1, g1, g2, _, g4⟩
      · left
        simp only at h1 h2
        subst h1
        exact ⟨⟨e, rfl⟩, h2.trans hc1⟩
      · right
        refine ⟨spec, ?_, g1, g2, fun j c hc => g4 j c (Nat.zero_le _) hc⟩
        cases res <;> exact (h1.trans (by rw [hc1]))
  · intro hobs hne
    exact bulk_save_observed_calls env scb w hobs hne

/-- The hooks of the traced batch are non-nil and delegate. -/
theorem tracedBatch_delegates :
    ∀ b ∈ tracedBatch.builders, ∀ x ∈ b.hooks, ∃ f, x = some f ∧ Delegates f := by
  intro b hb x hx
  simp only [tracedBatch, List.mem_cons, List.mem_singleton, List.not_mem_nil, or_false] at hb
  rcases hb with rfl | rfl
  · simp only [builder0, List.mem_singleton] at hx
    exact ⟨tracingHook 0, hx, tracingHook_delegates 0⟩
  · simp only [builder0, List.mem_cons, List.mem_singleton, List.not_mem_nil, or_false] at hx
    rcases hx with rfl | rfl
    · exact ⟨tracingHook 1, rfl, tracingHook_delegates 1⟩
    · exact ⟨tracingHook 2, rfl, tracingHook_delegates 2⟩

/-- C5 amended, at the batch of two builders with tracing hooks: `Save` returns no
error and both entities. -/
theorem bulk_save_all_or_nothing_witness :
    (tracedBatch.Save env0 world0).1 =
        .ret (some [some { ID := idOf 1, device_sessions := none },
          some { ID := idOf 2, device_sessions := none }], none) ∧
      ((∃ e, (tracedBatch.Save env0 world0).1 = .ret (none, some e)) ∨
        (∃ nodes, (tracedBatch.Save env0 world0).1 = .ret (some nodes, none) ∧
          nodes.length = tracedBatch.builders.length ∧ ∀ x ∈ nodes, ∃ n, x = some n)) :=
  ⟨rfl, bulk_save_all_or_nothing env0 tracedBatch world0 tracedBatch_delegates⟩

/-- C5 as stated fails.  When the hook of the second builder does not delegate,
`Save` returns no error and a slice whose first entry holds a node and whose
second entry is nil; so it does when that hook delegates but turns the error of
the failed check into a value; and with a nil hook in the batch `Save` panics
and returns nothing. -/
theorem bulk_save_all_or_nothing_counterexample :
    (batchWithReplaceHook.Save env0 world0).1 =
        .ret (some [some { ID := idOf 1, device_sessions := none }, none], none) ∧
      (batchWithSwallowHook.Save env0 worldBadID1).1 =
        .ret (some [some { ID := idOf 1, device_sessions := none }, none], none) ∧
      (SessionCreateBulk.Save env0
          { builders := [builder0 0 [] [], builder0 1 [none] []], conflict := [] } world0).1 =
        .panic .runtime := by
  refine ⟨rfl, rfl, rfl⟩

/-- The hooks of the traced batch are non-nil and observe. -/
theorem tracedBatch_observes :
    ∀ b ∈ tracedBatch.builders, ∀ x ∈ b.hooks, ∃ f, x = some f ∧ Observes f := by
  intro b hb x hx
  simp only [tracedBatch, List.mem_cons, List.mem_singleton, List.not_mem_nil, or_false] at hb
  rcases hb with rfl | rfl
  · simp only [builder0, List.mem_singleton] at hx
    exact ⟨tracingHook 0, hx, tracingHook_observes 0⟩
  · simp only [builder0, List.mem_cons, List.mem_singleton, List.not_mem_nil, or_false] at hx
    rcases hx with rfl | rfl
    · exact ⟨tracingHook 1, rfl, tracingHook_observes 1⟩
    · exact ⟨tracingHook 2, rfl, tracingHook_observes 2⟩

/-- C2 amended, at the batch of two builders with three tracing hooks: exactly one
call, with the specs of the two builders in order. -/
theorem bulk_save_batch_calls_witness :
    tracedBatch.builders ≠ [] ∧
      (∀ b ∈ tracedBatch.builders, b.check env0 (tracedBatch.defaultsAll env0 world0) = none) ∧
      batchCalls (tracedBatch.Save env0 world0).2.log =
        [{ Nodes := [some (spec0 (idOf 1) []), some (spec0 (idOf 2) [])], OnConflict := [] }] :=
  ⟨by simp [tracedBatch],
    by
      intro b hb
      simp only [tracedBatch, List.mem_cons, List.mem_singleton, List.not_mem_nil,
        or_false] at hb
      rcases hb with rfl | rfl <;> rfl,
    ((bulk_save_batch_calls env0 tracedBatch world0 tracedBatch_delegates).2.2
      tracedBatch_observes (by simp [tracedBatch])).1
      (by
        intro b hb
        simp only [tracedBatch, List.mem_cons, List.mem_singleton, List.not_mem_nil,
          or_false] at hb
        rcases hb with rfl | rfl <;> rfl)⟩

/-- C2 as stated fails.  With K = 0 builders `Save` makes no executor call; neither
does it with one hook-free builder whose explicitly set id is rejected, nor with
a batch in which a hook does not delegate, nor with a batch in which a hook turns
the error of a failed check into a value; and with a hook that calls the next
mutator twice, `Save` makes two calls. -/
theorem bulk_save_batch_calls_counterexample :
    (SessionCreateBulk.Save env0 { builders := [], conflict := [] } world0).1 =
        .ret (some [], none) ∧
      (SessionCreateBulk.Save env0 { builders := [], conflict := [] } world0).2.log = [] ∧
      (SessionCreateBulk.Save env0 { builders := [builder0 0 [] []], conflict := [] }
          worldBadID).2.log = [] ∧
      (batchWithReplaceHook.Save env0 world0).2.log = [.hookCall 1 0] ∧
      (batchWithSwallowHook.Save env0 worldBadID1).2.log = [.hookCall 1 0] ∧
      batchCalls (SessionCreateBulk.Save env0
          { builders := [builder0 0 [some twiceHook] []], conflict := [] } world0).2.log =
        [{ Nodes := [some (spec0 (idOf 1) [])], OnConflict := [] },
          { Nodes := [some (spec0 (idOf 1) [])], OnConflict := [] }] := by
  refine ⟨rfl, rfl, rfl, rfl, rfl, rfl⟩

end Ent
